import Mathlib

/-!
Shallow embedding of the dishduty chore-rotation service (Go / PocketBase).

The record store is the external collaborator of the spec: we model it as
in-memory lists of records with the one declared store-level constraint,
the unique index on the assignments `date` column (`Unique: true` in the
collection schema).  Saves that would violate that index fail and leave the
record unchanged, exactly as a SQLite unique-constraint error surfaces
through `dao.SaveRecord`; the Go code logs such errors and continues.
Calendar days are modelled at day granularity as naturals (the code
normalises every comparison to the `YYYY-MM-DD` day, per the Nat
Utilities section of the spec), and record ids as naturals drawn from a
fresh-id counter.  Store queries are modelled at the granularity the
handlers request them: `LIMIT 1` queries return the first matching record
in store order, `ORDER BY x DESC/ASC LIMIT 1` queries return a maximal /
minimal element, and list queries return the filtered records in the
requested order.
-/

/-- `addDaysToYMDGo` of the Go source, at day granularity. -/
def addDaysToYMDGo (d : Nat) (days : Nat) : Nat :=
  d + days

/-- Status of an assignment, the select values of the `assignments` schema. -/
inductive Status where
  | assigned
  | done
  | not_done
deriving DecidableEq, Repr

/-- Action types written to the `action_log` collection by the handlers. -/
inductive ActionType where
  | assigned
  | added_to_queue
  | marked_not_done
  | randomly_assigned
  | queue_processed
  | assignment_cancelled_for_reassignment
  | random_assignment_failed
deriving DecidableEq, Repr

/-- A `workers` record. -/
structure Worker where
  wid : Nat
  name : String
  last_assigned_date : Option Nat
deriving DecidableEq, Repr

/-- An `assignments` record. -/
structure Assignment where
  aid : Nat
  worker_id : Nat
  date : Nat
  status : Status
deriving DecidableEq, Repr

/-- An `assignment_queue` record. -/
structure QueueEntry where
  qid : Nat
  worker_id : Nat
  start_date : Nat
  duration_days : Nat
  order : Nat
deriving DecidableEq, Repr

/-- The record store: the four collections plus a fresh-id counter.
Lists are kept in insertion (rowid) order, which is the order unsorted
queries return records in. -/
structure AppState where
  workers : List Worker
  assignments : List Assignment
  queue : List QueueEntry
  log : List ActionType
  nextId : Nat
deriving DecidableEq, Repr

/-- Errors surfaced by the handlers (the spec's error taxonomy). -/
inductive OpError where
  | notFound
  | invalidInput
  | unauthorized
  | noWorkers
  | conflict
deriving DecidableEq, Repr

/-- `isAdminGo`: the shared-secret check.  `adminPassEnvVar` is the value of
the `ADMIN_PASS` environment variable (`""` when unset, as `os.Getenv`
reports an absent variable). -/
def isAdminGo (adminPassEnvVar : String) (providedPassword : String) : Bool :=
  if adminPassEnvVar = "" then false
  else providedPassword == adminPassEnvVar

/-! ### Store primitives -/

/-- Delete an assignment record by id. -/
def deleteAssign (s : AppState) (rid : Nat) : AppState :=
  { s with assignments := s.assignments.filter (fun a => a.aid != rid) }

/-- Update the status of an assignment record (no unique constraint on
status, so the save always succeeds). -/
def setAssignStatus (s : AppState) (rid : Nat) (st : Status) : AppState :=
  { s with assignments :=
      s.assignments.map (fun a => if a.aid = rid then { a with status := st } else a) }

/-- Update the date of an assignment record.  The save fails (state
unchanged) when another record already holds the new date, per the unique
index on `date`. -/
def setAssignDateGuarded (s : AppState) (rid : Nat) (nd : Nat) : AppState :=
  if s.assignments.any (fun a => a.aid != rid && a.date == nd) then s
  else { s with assignments :=
      s.assignments.map (fun a => if a.aid = rid then { a with date := nd } else a) }

/-- Insert a new assignment record.  The insert fails (`false`) when a
record already holds the date, per the unique index on `date`. -/
def createAssignGuarded (s : AppState) (wid : Nat) (d : Nat) (st : Status) :
    AppState × Bool :=
  if s.assignments.any (fun a => a.date == d) then (s, false)
  else ({ s with
            assignments := s.assignments ++ [⟨s.nextId, wid, d, st⟩],
            nextId := s.nextId + 1 }, true)

/-- Delete a queue record by id. -/
def deleteQueue (s : AppState) (rid : Nat) : AppState :=
  { s with queue := s.queue.filter (fun q => q.qid != rid) }

/-- Update the start date of a queue record (no unique constraint). -/
def setQueueStart (s : AppState) (rid : Nat) (nd : Nat) : AppState :=
  { s with queue :=
      s.queue.map (fun q => if q.qid = rid then { q with start_date := nd } else q) }

/-- Insert a new queue record. -/
def createQueueEntry (s : AppState) (wid : Nat) (startD : Nat)
    (duration : Nat) (ord : Nat) : AppState :=
  { s with
      queue := s.queue ++ [⟨s.nextId, wid, startD, duration, ord⟩],
      nextId := s.nextId + 1 }

/-- Update a worker's `last_assigned_date`. -/
def setWorkerLad (s : AppState) (wid : Nat) (d : Option Nat) : AppState :=
  { s with workers :=
      s.workers.map (fun w => if w.wid = wid then { w with last_assigned_date := d } else w) }

/-- Append an action-log record (`logActionGo`). -/
def appendLog (s : AppState) (t : ActionType) : AppState :=
  { s with log := s.log ++ [t] }

/-- Look a worker up by record id (`dao.FindRecordById("workers", id)`). -/
def findWorker (s : AppState) (wid : Nat) : Option Worker :=
  s.workers.find? (fun w => w.wid == wid)

/-! ### Query helpers (the `ORDER BY ... LIMIT 1` store queries) -/

/-- Fold step for an `ORDER BY key DESC LIMIT 1` query: keep the record
with the strictly larger key, first one on ties. -/
def pickMaxBy (key : α → Nat) (acc : Option α) (x : α) : Option α :=
  match acc with
  | none => some x
  | some b => if key b < key x then some x else some b

/-- `ORDER BY key DESC LIMIT 1` over a whole collection. -/
def findMaxBy (key : α → Nat) (l : List α) : Option α :=
  l.foldl (pickMaxBy key) none

/-- Fold step for an `ORDER BY key ASC LIMIT 1` query. -/
def pickMinBy (key : α → Nat) (acc : Option α) (x : α) : Option α :=
  match acc with
  | none => some x
  | some b => if key x < key b then some x else some b

/-- `ORDER BY key ASC LIMIT 1` over a whole collection. -/
def findMinBy (key : α → Nat) (l : List α) : Option α :=
  l.foldl (pickMinBy key) none

/-- The due-queue query of both resolvers:
`start_date <= today ORDER BY order ASC LIMIT 1`. -/
def dueQueueEntry (queue : List QueueEntry) (today : Nat) : Option QueueEntry :=
  findMinBy (fun q => q.order) (queue.filter (fun q => decide (q.start_date ≤ today)))

/-- Insert into a list sorted by a strict comparison; a stable insertion
(equal keys keep the earlier record first, as a stable `ORDER BY`). -/
def insSorted (lt : α → α → Bool) (a : α) : List α → List α
  | [] => [a]
  | b :: bs => if lt a b then a :: b :: bs else b :: insSorted lt a bs

/-- Stable insertion sort, modelling an `ORDER BY` list query. -/
def sortBy (lt : α → α → Bool) : List α → List α
  | [] => []
  | a :: l => insSorted lt a (sortBy lt l)

/-! ### Rotation policy -/

/-- Strict order on optional last-assigned dates: a missing date is
earliest of all. -/
def ladLT (x y : Option Nat) : Bool :=
  match x, y with
  | none, none => false
  | none, some _ => true
  | some _, none => false
  | some d, some e => decide (d < e)

/-- Reflexive order on optional last-assigned dates. -/
def ladLE (x y : Option Nat) : Prop :=
  match x, y with
  | none, _ => True
  | some _, none => False
  | some d, some e => d ≤ e

instance (x y : Option Nat) : Decidable (ladLE x y) := by
  unfold ladLE
  exact match x, y with
  | none, _ => inferInstanceAs (Decidable True)
  | some _, none => inferInstanceAs (Decidable False)
  | some d, some e => inferInstanceAs (Decidable (d ≤ e))

/-- The selection loop of `ensureDailyAssignmentGo` (main.go): walk the
roster, break at the first worker who has never been assigned, otherwise
keep the first worker seen with the strictly earliest date.  `chosen` and
`oldest` are the loop variables (`oldest = none` plays `firstUnassigned`). -/
def selectLoop : List Worker → Option Worker → Option Nat → Option Worker
  | [], chosen, _ => chosen
  | w :: ws, chosen, oldest =>
    match w.last_assigned_date with
    | none => some w
    | some d =>
      match oldest with
      | none => selectLoop ws (some w) (some d)
      | some od =>
        if d < od then selectLoop ws (some w) (some d)
        else selectLoop ws chosen (some od)

/-- The random-assignment worker selection of `ensureDailyAssignmentGo`,
including the `allWorkers[0]` fallback the Go code keeps for the case
where every date failed to parse (unreachable here). -/
def selectNext (workers : List Worker) : Option Worker :=
  match selectLoop workers none none with
  | some w => some w
  | none => workers.head?

/-- Reference recursion used to reason about `selectLoop`: first worker
with no date, otherwise the first occurrence of the minimal date. -/
def selectMin : List Worker → Option Worker
  | [] => none
  | w :: ws =>
    match w.last_assigned_date with
    | none => some w
    | some d =>
      match selectMin ws with
      | none => some w
      | some v => if ladLT v.last_assigned_date (some d) then some v else some w

/-- The worker selection of `processDailyAssignments` (part_000): head of
the roster sorted by `last_assigned_date ASC NULLS FIRST, created ASC`
(the store list is kept in creation order, and the sort is stable). -/
def selectNextSorted (workers : List Worker) : Option Worker :=
  (sortBy (fun a b => ladLT a.last_assigned_date b.last_assigned_date) workers).head?

/-! ### Queue add handler (`POST /api/dishduty/queue/add`) -/

/-- The raw start date computed by the queue-add handler before the
past-date clamp: day after the end of the highest-order queue entry;
otherwise day after the latest assignment when that is today-or-future,
else today; otherwise today. -/
def computeStart (s : AppState) (today : Nat) : Nat :=
  match findMaxBy (fun q => q.order) s.queue with
  | some lastQ => addDaysToYMDGo (lastQ.start_date + (lastQ.duration_days - 1)) 1
  | none =>
    match findMaxBy (fun a => a.date) s.assignments with
    | some la =>
      if today ≤ la.date then addDaysToYMDGo la.date 1 else today
    | none => today

/-- The `order` value for a new queue entry: highest existing order plus
one, or `1` on an empty queue. -/
def computeOrder (s : AppState) : Nat :=
  match findMaxBy (fun q => q.order) s.queue with
  | some lastQ => lastQ.order + 1
  | none => 1

/-- Queue-add handler after the admin check: validate the duration, look
the worker up, compute start date and order, clamp the start date to
today, insert the queue record and log `added_to_queue`. -/
def queueAddCore (wid : Nat) (durationDays : Int) (today : Nat) (s : AppState) :
    AppState × Except OpError Unit :=
  if durationDays < 1 || 7 < durationDays then (s, .error .invalidInput)
  else
    match findWorker s wid with
    | none => (s, .error .notFound)
    | some w =>
      let startRaw := computeStart s today
      let startD := if startRaw < today then today else startRaw
      let s1 := createQueueEntry s w.wid startD durationDays.toNat (computeOrder s)
      (appendLog s1 .added_to_queue, .ok ())

/-- The full queue-add handler, admin check included. -/
def queueAddHandler (env pw : String) (wid : Nat) (durationDays : Int)
    (today : Nat) (s : AppState) : AppState × Except OpError Unit :=
  if isAdminGo env pw then queueAddCore wid durationDays today s
  else (s, .error .unauthorized)

/-! ### Status update handler (`PATCH /api/dishduty/assignments/:id/status`) -/

/-- Parse a status string; `none` exactly on the values the handler
rejects. -/
def statusOfString (st : String) : Option Status :=
  if st == "assigned" then some .assigned
  else if st == "done" then some .done
  else if st == "not_done" then some .not_done
  else none

/-- Status-update handler after the admin check: validate the status
value, look the assignment up, save the new status, and log
`marked_not_done` on a transition to that status. -/
def statusUpdateCore (rid : Nat) (stStr : String) (s : AppState) :
    AppState × Except OpError Unit :=
  match statusOfString stStr with
  | none => (s, .error .invalidInput)
  | some st =>
    match s.assignments.find? (fun a => a.aid == rid) with
    | none => (s, .error .notFound)
    | some a =>
      let s1 := setAssignStatus s a.aid st
      if st = .not_done then (appendLog s1 .marked_not_done, .ok ())
      else (s1, .ok ())

/-- The full status-update handler, admin check included. -/
def statusUpdateHandler (env pw : String) (rid : Nat) (stStr : String)
    (s : AppState) : AppState × Except OpError Unit :=
  if isAdminGo env pw then statusUpdateCore rid stStr s
  else (s, .error .unauthorized)

/-! ### Daily assignment resolver, main.go variant (`ensureDailyAssignmentGo`) -/

/-- Create today's assignment for the decided worker and log the action;
a failed save (unique date) is surfaced as an error without logging. -/
def createTodayAndLog (today : Nat) (s : AppState) (wid : Nat) :
    AppState × Except OpError Unit :=
  match createAssignGuarded s wid today .assigned with
  | (s1, true) => (appendLog s1 .assigned, .ok ())
  | (s1, false) => (s1, .error .conflict)

/-- Random-assignment branch of `ensureDailyAssignmentGo`: pick the
least-recently-assigned worker, stamp `last_assigned_date = today`, then
create today's assignment. -/
def rotationAssign (today : Nat) (s : AppState) : AppState × Except OpError Unit :=
  match selectNext s.workers with
  | none => (s, .error .noWorkers)
  | some w => createTodayAndLog today (setWorkerLad s w.wid (some today)) w.wid

/-- The assign phase of `ensureDailyAssignmentGo`, reached when no
assignment for today remains: consume the due queue entry when its worker
resolves (stamp the worker, delete the entry), otherwise fall back to the
rotation; in either case create today's assignment. -/
def resolveAssign (today : Nat) (s : AppState) : AppState × Except OpError Unit :=
  match dueQueueEntry s.queue today with
  | some q =>
    match findWorker s q.worker_id with
    | some w =>
      let s1 := setWorkerLad s w.wid (some today)
      let s2 := deleteQueue s1 q.qid
      createTodayAndLog today s2 w.wid
    | none => rotationAssign today s
  | none => rotationAssign today s

/-- `ensureDailyAssignmentGo` (main.go): if today's assignment exists with
status `assigned` or `done` return with no writes; if it exists with
status `not_done` delete it and reassign; otherwise assign today from the
queue or the rotation. -/
def ensureDailyAssignmentGo (today : Nat) (s : AppState) : AppState × Except OpError Unit :=
  match s.assignments.find? (fun a => a.date == today) with
  | some a =>
    if a.status = .not_done then resolveAssign today (deleteAssign s a.aid)
    else (s, .ok ())
  | none => resolveAssign today s

/-! ### Daily assignment resolver, part_000 variant (`processDailyAssignments`) -/

/-- One iteration of the multi-day queue-consumption loop: if an
assignment of this worker already exists on the date, make sure its
status is `assigned`; otherwise insert a fresh `assigned` record (the
insert fails silently when another worker holds the date, per the unique
index). -/
def assignOneDay (s : AppState) (wid : Nat) (d : Nat) : AppState :=
  match s.assignments.find? (fun a => a.worker_id == wid && a.date == d) with
  | some ex =>
    if ex.status ≠ .assigned then setAssignStatus s ex.aid .assigned else s
  | none => (createAssignGuarded s wid d .assigned).1

/-- `processDailyAssignments` (part_000): return unchanged when today
already has an `assigned` assignment; otherwise consume the due queue
entry over its whole span (start clamped to today), stamp the worker's
`last_assigned_date` with the last day of the span, and log
`queue_processed`; with no due entry, assign today by the sorted rotation
and log `randomly_assigned`. -/
def processDailyAssignments (today : Nat) (s : AppState) : AppState × Except OpError Unit :=
  match s.assignments.find? (fun a => a.date == today && a.status == Status.assigned) with
  | some _ => (s, .ok ())
  | none =>
    match dueQueueEntry s.queue today with
    | some q =>
      match findWorker s q.worker_id with
      | none => (s, .error .notFound)
      | some w =>
        let eff := if q.start_date < today then today else q.start_date
        let s1 := (List.range q.duration_days).foldl
          (fun t i => assignOneDay t w.wid (addDaysToYMDGo eff i)) s
        let s2 := deleteQueue s1 q.qid
        let s3 := setWorkerLad s2 w.wid (some (addDaysToYMDGo eff (q.duration_days - 1)))
        (appendLog s3 .queue_processed, .ok ())
    | none =>
      match selectNextSorted s.workers with
      | none => (appendLog s .random_assignment_failed, .error .noWorkers)
      | some w =>
        match createAssignGuarded s w.wid today .assigned with
        | (s1, false) => (s1, .error .conflict)
        | (s1, true) =>
          let s2 := setWorkerLad s1 w.wid (some today)
          (appendLog s2 .randomly_assigned, .ok ())

/-! ### Undone handler (`POST /api/dishduty/mark-not-done`, part_000) -/

/-- The forward shift of future assignments: for each fetched record (all
records with `date > today`, in ascending date order) save `date + 1`;
a save colliding with the unique date index fails and the loop continues. -/
def shiftAssignmentsLoop (s : AppState) (fetched : List Assignment) : AppState :=
  fetched.foldl (fun t a => setAssignDateGuarded t a.aid (addDaysToYMDGo a.date 1)) s

/-- The forward shift of queue entries: every entry whose start date is on
or after today moves one day later. -/
def shiftQueueLoop (today : Nat) (s : AppState) (fetched : List QueueEntry) : AppState :=
  fetched.foldl
    (fun t q =>
      if today ≤ q.start_date then setQueueStart t q.qid (addDaysToYMDGo q.start_date 1)
      else t) s

/-- Both cascade shifts of the mark-not-done handler, each over a fresh
fetch of its collection. -/
def doShifts (today : Nat) (s : AppState) : AppState :=
  let s1 := shiftAssignmentsLoop s
    (sortBy (fun a b => decide (a.date < b.date))
      (s.assignments.filter (fun a => decide (today < a.date))))
  shiftQueueLoop today s1 (sortBy (fun a b => decide (a.order < b.order)) s1.queue)

/-- The mark-not-done handler after the admin check: mark the target
date's assignment `not_done`; supersede today's assignment when it
belongs to another worker; reassign today to the failed worker when they
do not already hold it (stamping their `last_assigned_date`); then shift
future assignments and pending queue entries forward one day and log
`marked_not_done`. -/
def markNotDone (dd today : Nat) (s : AppState) : AppState × Except OpError Unit :=
  match s.assignments.find? (fun a => a.date == dd) with
  | none => (s, .error .notFound)
  | some aMark =>
    let s1 := setAssignStatus s aMark.aid .not_done
    match findWorker s1 aMark.worker_id with
    | none => (s1, .error .notFound)
    | some _ =>
      let existingToday := s1.assignments.find? (fun a => a.date == today)
      let s2 :=
        match existingToday with
        | some et =>
          if et.worker_id ≠ aMark.worker_id then
            appendLog (deleteAssign s1 et.aid) .assignment_cancelled_for_reassignment
          else s1
        | none => s1
      let needCreate :=
        match existingToday with
        | none => true
        | some et => et.worker_id != aMark.worker_id
      if needCreate then
        match createAssignGuarded s2 aMark.worker_id today .assigned with
        | (s3, false) => (s3, .error .conflict)
        | (s3, true) =>
          let s4 := setWorkerLad s3 aMark.worker_id (some today)
          (appendLog (doShifts today s4) .marked_not_done, .ok ())
      else
        (appendLog (doShifts today s2) .marked_not_done, .ok ())

/-- The full mark-not-done handler, admin check included. -/
def markNotDoneHandler (env pw : String) (dd today : Nat) (s : AppState) :
    AppState × Except OpError Unit :=
  if isAdminGo env pw then markNotDone dd today s
  else (s, .error .unauthorized)

/-! ### Current-assignee endpoint (`GET /api/dishduty/current-assignee`, main.go) -/

/-- The fetch step of the current-assignee endpoint: today's assignment
with `status = 'assigned'` only. -/
def currentAssigneeFetch (today : Nat) (s : AppState) : Option Assignment :=
  s.assignments.find? (fun a => a.date == today && a.status == Status.assigned)

/-- The current-assignee endpoint: run the resolver, then fetch today's
`assigned` record (`none` models the 404 response). -/
def currentAssigneeEndpoint (today : Nat) (s : AppState) : AppState × Option Assignment :=
  let s1 := (ensureDailyAssignmentGo today s).1
  (s1, currentAssigneeFetch today s1)

/-! ### Operation alphabet for the global uniqueness invariant -/

/-- The core state-changing operations of the service. -/
inductive Op where
  | resolve (today : Nat)
  | process (today : Nat)
  | queueAdd (env pw : String) (wid : Nat) (durationDays : Int) (today : Nat)
  | setStatus (env pw : String) (rid : Nat) (st : String)
  | notDone (env pw : String) (dd today : Nat)
deriving Repr

/-- Apply one operation to the store. -/
def applyOp (s : AppState) : Op → AppState
  | .resolve today => (ensureDailyAssignmentGo today s).1
  | .process today => (processDailyAssignments today s).1
  | .queueAdd env pw wid durationDays today => (queueAddHandler env pw wid durationDays today s).1
  | .setStatus env pw rid st => (statusUpdateHandler env pw rid st s).1
  | .notDone env pw dd today => (markNotDoneHandler env pw dd today s).1

/-- Run a sequence of operations. -/
def runOps (ops : List Op) (s : AppState) : AppState :=
  ops.foldl applyOp s

/-! ### Field-preservation lemmas for the store primitives -/

@[simp] theorem deleteAssign_workers (s : AppState) (rid : Nat) :
    (deleteAssign s rid).workers = s.workers := rfl

@[simp] theorem deleteAssign_queue (s : AppState) (rid : Nat) :
    (deleteAssign s rid).queue = s.queue := rfl

@[simp] theorem deleteAssign_nextId (s : AppState) (rid : Nat) :
    (deleteAssign s rid).nextId = s.nextId := rfl

@[simp] theorem deleteAssign_assignments (s : AppState) (rid : Nat) :
    (deleteAssign s rid).assignments = s.assignments.filter (fun a => a.aid != rid) := rfl

@[simp] theorem setAssignStatus_workers (s : AppState) (rid : Nat) (st : Status) :
    (setAssignStatus s rid st).workers = s.workers := rfl

@[simp] theorem setAssignStatus_queue (s : AppState) (rid : Nat) (st : Status) :
    (setAssignStatus s rid st).queue = s.queue := rfl

@[simp] theorem setAssignStatus_nextId (s : AppState) (rid : Nat) (st : Status) :
    (setAssignStatus s rid st).nextId = s.nextId := rfl

@[simp] theorem setAssignStatus_assignments (s : AppState) (rid : Nat) (st : Status) :
    (setAssignStatus s rid st).assignments =
      s.assignments.map (fun a => if a.aid = rid then { a with status := st } else a) := rfl

@[simp] theorem setAssignDateGuarded_workers (s : AppState) (rid : Nat) (nd : Nat) :
    (setAssignDateGuarded s rid nd).workers = s.workers := by
  unfold setAssignDateGuarded; split <;> rfl

@[simp] theorem setAssignDateGuarded_queue (s : AppState) (rid : Nat) (nd : Nat) :
    (setAssignDateGuarded s rid nd).queue = s.queue := by
  unfold setAssignDateGuarded; split <;> rfl

@[simp] theorem setAssignDateGuarded_log (s : AppState) (rid : Nat) (nd : Nat) :
    (setAssignDateGuarded s rid nd).log = s.log := by
  unfold setAssignDateGuarded; split <;> rfl

@[simp] theorem setAssignDateGuarded_nextId (s : AppState) (rid : Nat) (nd : Nat) :
    (setAssignDateGuarded s rid nd).nextId = s.nextId := by
  unfold setAssignDateGuarded; split <;> rfl

@[simp] theorem createAssignGuarded_workers (s : AppState) (wid : Nat) (d : Nat) (st : Status) :
    (createAssignGuarded s wid d st).1.workers = s.workers := by
  unfold createAssignGuarded; split <;> rfl

@[simp] theorem createAssignGuarded_queue (s : AppState) (wid : Nat) (d : Nat) (st : Status) :
    (createAssignGuarded s wid d st).1.queue = s.queue := by
  unfold createAssignGuarded; split <;> rfl

@[simp] theorem createAssignGuarded_log (s : AppState) (wid : Nat) (d : Nat) (st : Status) :
    (createAssignGuarded s wid d st).1.log = s.log := by
  unfold createAssignGuarded; split <;> rfl

theorem createAssignGuarded_nextId_le (s : AppState) (wid : Nat) (d : Nat) (st : Status) :
    s.nextId ≤ (createAssignGuarded s wid d st).1.nextId := by
  unfold createAssignGuarded; split
  · exact Nat.le_refl _
  · exact Nat.le_succ _

@[simp] theorem deleteQueue_workers (s : AppState) (rid : Nat) :
    (deleteQueue s rid).workers = s.workers := rfl

@[simp] theorem deleteQueue_assignments (s : AppState) (rid : Nat) :
    (deleteQueue s rid).assignments = s.assignments := rfl

@[simp] theorem deleteQueue_nextId (s : AppState) (rid : Nat) :
    (deleteQueue s rid).nextId = s.nextId := rfl

@[simp] theorem deleteQueue_log (s : AppState) (rid : Nat) :
    (deleteQueue s rid).log = s.log := rfl

@[simp] theorem setQueueStart_workers (s : AppState) (rid : Nat) (nd : Nat) :
    (setQueueStart s rid nd).workers = s.workers := rfl

@[simp] theorem setQueueStart_assignments (s : AppState) (rid : Nat) (nd : Nat) :
    (setQueueStart s rid nd).assignments = s.assignments := rfl

@[simp] theorem setQueueStart_nextId (s : AppState) (rid : Nat) (nd : Nat) :
    (setQueueStart s rid nd).nextId = s.nextId := rfl

@[simp] theorem setQueueStart_log (s : AppState) (rid : Nat) (nd : Nat) :
    (setQueueStart s rid nd).log = s.log := rfl

@[simp] theorem createQueueEntry_workers (s : AppState) (wid : Nat) (startD : Nat)
    (duration ord : Nat) : (createQueueEntry s wid startD duration ord).workers = s.workers := rfl

@[simp] theorem createQueueEntry_assignments (s : AppState) (wid : Nat) (startD : Nat)
    (duration ord : Nat) :
    (createQueueEntry s wid startD duration ord).assignments = s.assignments := rfl

@[simp] theorem createQueueEntry_queue (s : AppState) (wid : Nat) (startD : Nat)
    (duration ord : Nat) :
    (createQueueEntry s wid startD duration ord).queue =
      s.queue ++ [⟨s.nextId, wid, startD, duration, ord⟩] := rfl

@[simp] theorem createQueueEntry_nextId (s : AppState) (wid : Nat) (startD : Nat)
    (duration ord : Nat) :
    (createQueueEntry s wid startD duration ord).nextId = s.nextId + 1 := rfl

@[simp] theorem setWorkerLad_assignments (s : AppState) (wid : Nat) (d : Option Nat) :
    (setWorkerLad s wid d).assignments = s.assignments := rfl

@[simp] theorem setWorkerLad_queue (s : AppState) (wid : Nat) (d : Option Nat) :
    (setWorkerLad s wid d).queue = s.queue := rfl

@[simp] theorem setWorkerLad_nextId (s : AppState) (wid : Nat) (d : Option Nat) :
    (setWorkerLad s wid d).nextId = s.nextId := rfl

@[simp] theorem setWorkerLad_log (s : AppState) (wid : Nat) (d : Option Nat) :
    (setWorkerLad s wid d).log = s.log := rfl

@[simp] theorem setWorkerLad_workers (s : AppState) (wid : Nat) (d : Option Nat) :
    (setWorkerLad s wid d).workers =
      s.workers.map (fun w => if w.wid = wid then { w with last_assigned_date := d } else w) := rfl

@[simp] theorem appendLog_assignments (s : AppState) (t : ActionType) :
    (appendLog s t).assignments = s.assignments := rfl

@[simp] theorem appendLog_workers (s : AppState) (t : ActionType) :
    (appendLog s t).workers = s.workers := rfl

@[simp] theorem appendLog_queue (s : AppState) (t : ActionType) :
    (appendLog s t).queue = s.queue := rfl

@[simp] theorem appendLog_nextId (s : AppState) (t : ActionType) :
    (appendLog s t).nextId = s.nextId := rfl

/-! ### The well-formedness invariant of the store -/

/-- Record ids of the assignment collection are pairwise distinct. -/
def pairwiseAid (l : List Assignment) : Prop :=
  l.Pairwise (fun a b => a.aid ≠ b.aid)

/-- Dates of the assignment collection are pairwise distinct (the unique
index on `date`). -/
def pairwiseDate (l : List Assignment) : Prop :=
  l.Pairwise (fun a b => a.date ≠ b.date)

/-- Store well-formedness: distinct record ids, distinct dates, and every
id below the fresh-id counter. -/
def WF (s : AppState) : Prop :=
  pairwiseAid s.assignments ∧ pairwiseDate s.assignments ∧
    ∀ a ∈ s.assignments, a.aid < s.nextId

instance (l : List Assignment) : Decidable (pairwiseAid l) :=
  List.instDecidablePairwise l

instance (l : List Assignment) : Decidable (pairwiseDate l) :=
  List.instDecidablePairwise l

instance (s : AppState) : Decidable (WF s) :=
  inferInstanceAs (Decidable (_ ∧ _ ∧ _))

theorem pairwiseAid_map (l : List Assignment) (f : Assignment → Assignment)
    (hf : ∀ a, (f a).aid = a.aid) (h : pairwiseAid l) : pairwiseAid (l.map f) := by
  rw [pairwiseAid, List.pairwise_map]
  exact h.imp (by intro a b hab; rw [hf, hf]; exact hab)

theorem pairwiseDate_map (l : List Assignment) (f : Assignment → Assignment)
    (hf : ∀ a, (f a).date = a.date) (h : pairwiseDate l) : pairwiseDate (l.map f) := by
  rw [pairwiseDate, List.pairwise_map]
  exact h.imp (by intro a b hab; rw [hf, hf]; exact hab)

theorem WF_of_untouched {s t : AppState} (h1 : t.assignments = s.assignments)
    (h2 : s.nextId ≤ t.nextId) (h : WF s) : WF t := by
  obtain ⟨ha, hd, hb⟩ := h
  exact ⟨by rw [h1]; exact ha, by rw [h1]; exact hd,
    fun a hm => Nat.lt_of_lt_of_le (hb a (by rw [h1] at hm; exact hm)) h2⟩

theorem WF_deleteAssign (s : AppState) (rid : Nat) (h : WF s) :
    WF (deleteAssign s rid) := by
  obtain ⟨ha, hd, hb⟩ := h
  refine ⟨?_, ?_, ?_⟩
  · exact List.Pairwise.sublist (List.filter_sublist _) ha
  · exact List.Pairwise.sublist (List.filter_sublist _) hd
  · intro a hm
    simp only [deleteAssign_assignments, List.mem_filter] at hm
    exact hb a hm.1

theorem WF_setAssignStatus (s : AppState) (rid : Nat) (st : Status) (h : WF s) :
    WF (setAssignStatus s rid st) := by
  obtain ⟨ha, hd, hb⟩ := h
  refine ⟨?_, ?_, ?_⟩
  · exact pairwiseAid_map _ _ (by intro a; by_cases hc : a.aid = rid <;> simp [hc]) ha
  · exact pairwiseDate_map _ _ (by intro a; by_cases hc : a.aid = rid <;> simp [hc]) hd
  · intro a hm
    simp only [setAssignStatus_assignments, List.mem_map] at hm
    obtain ⟨b, hbm, hba⟩ := hm
    have haid : a.aid = b.aid := by
      rw [← hba]; by_cases hc : b.aid = rid <;> simp [hc]
    rw [setAssignStatus_nextId, haid]
    exact hb b hbm

theorem WF_setAssignDateGuarded (s : AppState) (rid : Nat) (nd : Nat) (h : WF s) :
    WF (setAssignDateGuarded s rid nd) := by
  unfold setAssignDateGuarded
  split
  · exact h
  · next hguard =>
    obtain ⟨ha, hd, hb⟩ := h
    rw [Bool.not_eq_true, List.any_eq_false] at hguard
    refine ⟨?_, ?_, ?_⟩
    · exact pairwiseAid_map _ _ (by intro a; by_cases hc : a.aid = rid <;> simp [hc]) ha
    · have hcomb := List.Pairwise.and ha hd
      rw [pairwiseDate, List.pairwise_map]
      refine hcomb.imp_of_mem ?_
      intro a b hma hmb hab
      obtain ⟨haid, hdate⟩ := hab
      by_cases h1 : a.aid = rid <;> by_cases h2 : b.aid = rid <;>
        simp only [h1, h2, if_pos, if_neg, ite_true, ite_false]
      · exact absurd (h1.trans h2.symm) haid
      · intro hc
        have hg := hguard b hmb
        simp only [Bool.and_eq_true, bne_iff_ne, beq_iff_eq, ne_eq, not_and] at hg
        exact hg h2 hc.symm
      · intro hc
        have hg := hguard a hma
        simp only [Bool.and_eq_true, bne_iff_ne, beq_iff_eq, ne_eq, not_and] at hg
        exact hg h1 hc
      · exact hdate
    · intro a hm
      simp only [List.mem_map] at hm
      obtain ⟨b, hbm, hba⟩ := hm
      have haid : a.aid = b.aid := by
        rw [← hba]; by_cases hc : b.aid = rid <;> simp [hc]
      rw [haid]
      exact hb b hbm

theorem WF_createAssignGuarded (s : AppState) (wid : Nat) (d : Nat) (st : Status)
    (h : WF s) : WF (createAssignGuarded s wid d st).1 := by
  unfold createAssignGuarded
  split
  · exact h
  · next hguard =>
    obtain ⟨ha, hd, hb⟩ := h
    rw [Bool.not_eq_true, List.any_eq_false] at hguard
    refine ⟨?_, ?_, ?_⟩
    · rw [pairwiseAid, List.pairwise_append]
      refine ⟨ha, List.pairwise_singleton _ _, ?_⟩
      intro a hma b hmb
      simp only [List.mem_singleton] at hmb
      subst hmb
      exact fun hc => absurd (hc ▸ hb a hma) (Nat.lt_irrefl _)
    · rw [pairwiseDate, List.pairwise_append]
      refine ⟨hd, List.pairwise_singleton _ _, ?_⟩
      intro a hma b hmb
      simp only [List.mem_singleton] at hmb
      subst hmb
      have hg := hguard a hma
      simp only [beq_iff_eq] at hg
      exact hg
    · intro a hm
      simp only [List.mem_append, List.mem_singleton] at hm
      rcases hm with hm | hm
      · exact Nat.lt_succ_of_lt (hb a hm)
      · subst hm; exact Nat.lt_succ_self _

/-- Invariant preservation over a folded loop body. -/
theorem foldl_preserves {P : AppState → Prop} {f : AppState → β → AppState}
    (hf : ∀ s b, P s → P (f s b)) :
    ∀ (l : List β) (s : AppState), P s → P (l.foldl f s)
  | [], _, hs => hs
  | b :: l, s, hs => foldl_preserves hf l (f s b) (hf s b hs)

theorem WF_setWorkerLad (s : AppState) (wid : Nat) (d : Option Nat) (h : WF s) :
    WF (setWorkerLad s wid d) :=
  WF_of_untouched (setWorkerLad_assignments s wid d) (Nat.le_of_eq (setWorkerLad_nextId s wid d).symm) h

theorem WF_deleteQueue (s : AppState) (rid : Nat) (h : WF s) :
    WF (deleteQueue s rid) :=
  WF_of_untouched (deleteQueue_assignments s rid) (Nat.le_of_eq (deleteQueue_nextId s rid).symm) h

theorem WF_appendLog (s : AppState) (t : ActionType) (h : WF s) :
    WF (appendLog s t) :=
  WF_of_untouched (appendLog_assignments s t) (Nat.le_of_eq (appendLog_nextId s t).symm) h

theorem WF_setQueueStart (s : AppState) (rid : Nat) (nd : Nat) (h : WF s) :
    WF (setQueueStart s rid nd) :=
  WF_of_untouched (setQueueStart_assignments s rid nd)
    (Nat.le_of_eq (setQueueStart_nextId s rid nd).symm) h

theorem WF_createQueueEntry (s : AppState) (wid : Nat) (startD : Nat)
    (duration ord : Nat) (h : WF s) : WF (createQueueEntry s wid startD duration ord) :=
  WF_of_untouched (createQueueEntry_assignments s wid startD duration ord)
    (by rw [createQueueEntry_nextId]; exact Nat.le_succ _) h

theorem WF_createTodayAndLog (today : Nat) (s : AppState) (wid : Nat) (h : WF s) :
    WF (createTodayAndLog today s wid).1 := by
  unfold createTodayAndLog
  split
  · next s1 heq =>
    have hw := WF_createAssignGuarded s wid today .assigned h
    rw [heq] at hw
    exact WF_appendLog s1 .assigned hw
  · next s1 heq =>
    have hw := WF_createAssignGuarded s wid today .assigned h
    rw [heq] at hw
    exact hw

theorem WF_rotationAssign (today : Nat) (s : AppState) (h : WF s) :
    WF (rotationAssign today s).1 := by
  unfold rotationAssign
  split
  · exact h
  · next w _ => exact WF_createTodayAndLog today _ w.wid (WF_setWorkerLad s w.wid (some today) h)

theorem WF_resolveAssign (today : Nat) (s : AppState) (h : WF s) :
    WF (resolveAssign today s).1 := by
  unfold resolveAssign
  split
  · next q _ =>
    split
    · next w _ =>
      exact WF_createTodayAndLog today _ w.wid
        (WF_deleteQueue _ q.qid (WF_setWorkerLad s w.wid (some today) h))
    · exact WF_rotationAssign today s h
  · exact WF_rotationAssign today s h

theorem WF_ensureDailyAssignmentGo (today : Nat) (s : AppState) (h : WF s) :
    WF (ensureDailyAssignmentGo today s).1 := by
  unfold ensureDailyAssignmentGo
  split
  · next a _ =>
    split
    · exact WF_resolveAssign today _ (WF_deleteAssign s a.aid h)
    · exact h
  · exact WF_resolveAssign today s h

theorem WF_assignOneDay (s : AppState) (wid : Nat) (d : Nat) (h : WF s) :
    WF (assignOneDay s wid d) := by
  unfold assignOneDay
  split
  · next ex _ =>
    split
    · exact WF_setAssignStatus s ex.aid .assigned h
    · exact h
  · exact WF_createAssignGuarded s wid d .assigned h

theorem WF_processDailyAssignments (today : Nat) (s : AppState) (h : WF s) :
    WF (processDailyAssignments today s).1 := by
  unfold processDailyAssignments
  split
  · exact h
  · split
    · next q _ =>
      split
      · exact h
      · next w _ =>
        refine WF_appendLog _ _ (WF_setWorkerLad _ _ _ (WF_deleteQueue _ _ ?_))
        exact foldl_preserves (fun t i ht => WF_assignOneDay t w.wid _ ht) _ s h
    · split
      · exact WF_appendLog s .random_assignment_failed h
      · next w _ =>
        split
        · next s1 heq =>
          have hw := WF_createAssignGuarded s w.wid today .assigned h
          rw [heq] at hw
          exact hw
        · next s1 heq =>
          have hw := WF_createAssignGuarded s w.wid today .assigned h
          rw [heq] at hw
          exact WF_appendLog _ _ (WF_setWorkerLad s1 w.wid (some today) hw)

theorem WF_doShifts (today : Nat) (s : AppState) (h : WF s) :
    WF (doShifts today s) := by
  unfold doShifts
  refine foldl_preserves (fun t q ht => ?_) _ _
    (foldl_preserves (fun t a ht => WF_setAssignDateGuarded t a.aid _ ht) _ s h)
  dsimp only
  split
  · exact WF_setQueueStart t q.qid _ ht
  · exact ht

theorem WF_markNotDone (dd today : Nat) (s : AppState) (h : WF s) :
    WF (markNotDone dd today s).1 := by
  unfold markNotDone
  split
  · exact h
  · next aMark _ =>
    have h1 : WF (setAssignStatus s aMark.aid .not_done) :=
      WF_setAssignStatus s aMark.aid .not_done h
    dsimp only
    split
    · exact h1
    · have h2 : WF (match (setAssignStatus s aMark.aid Status.not_done).assignments.find?
          (fun a => a.date == today) with
        | some et =>
          if et.worker_id ≠ aMark.worker_id then
            appendLog (deleteAssign (setAssignStatus s aMark.aid Status.not_done) et.aid)
              .assignment_cancelled_for_reassignment
          else setAssignStatus s aMark.aid Status.not_done
        | none => setAssignStatus s aMark.aid Status.not_done) := by
        split
        · split
          · exact WF_appendLog _ _ (WF_deleteAssign _ _ h1)
          · exact h1
        · exact h1
      split
      · split
        · next s3 heq =>
          have hw := WF_createAssignGuarded _ aMark.worker_id today .assigned h2
          rw [heq] at hw
          exact hw
        · next s3 heq =>
          have hw := WF_createAssignGuarded _ aMark.worker_id today .assigned h2
          rw [heq] at hw
          exact WF_appendLog _ _ (WF_doShifts today _ (WF_setWorkerLad s3 _ _ hw))
      · exact WF_appendLog _ _ (WF_doShifts today _ h2)

theorem WF_queueAddHandler (env pw : String) (wid : Nat) (durationDays : Int)
    (today : Nat) (s : AppState) (h : WF s) :
    WF (queueAddHandler env pw wid durationDays today s).1 := by
  unfold queueAddHandler queueAddCore
  split
  · split
    · exact h
    · split
      · exact h
      · exact WF_appendLog _ _ (WF_createQueueEntry _ _ _ _ _ h)
  · exact h

theorem WF_statusUpdateHandler (env pw : String) (rid : Nat) (stStr : String)
    (s : AppState) (h : WF s) : WF (statusUpdateHandler env pw rid stStr s).1 := by
  unfold statusUpdateHandler statusUpdateCore
  split
  · split
    · exact h
    · next st _ =>
      split
      · exact h
      · next a _ =>
        split
        · exact WF_appendLog _ _ (WF_setAssignStatus s a.aid st h)
        · exact WF_setAssignStatus s a.aid st h
  · exact h

theorem WF_markNotDoneHandler (env pw : String) (dd today : Nat) (s : AppState)
    (h : WF s) : WF (markNotDoneHandler env pw dd today s).1 := by
  unfold markNotDoneHandler
  split
  · exact WF_markNotDone dd today s h
  · exact h

theorem WF_applyOp (s : AppState) (op : Op) (h : WF s) : WF (applyOp s op) := by
  cases op with
  | resolve today => exact WF_ensureDailyAssignmentGo today s h
  | process today => exact WF_processDailyAssignments today s h
  | queueAdd env pw wid durationDays today => exact WF_queueAddHandler env pw wid durationDays today s h
  | setStatus env pw rid st => exact WF_statusUpdateHandler env pw rid st s h
  | notDone env pw dd today => exact WF_markNotDoneHandler env pw dd today s h

theorem WF_runOps (ops : List Op) (s : AppState) (h : WF s) : WF (runOps ops s) :=
  foldl_preserves (fun t op ht => WF_applyOp t op ht) ops s h

theorem length_filter_date_le_one (l : List Assignment) (h : pairwiseDate l) (D : Nat) :
    (l.filter (fun a => a.date == D)).length ≤ 1 := by
  induction l with
  | nil => simp
  | cons a l ih =>
    rw [pairwiseDate, List.pairwise_cons] at h
    obtain ⟨ha, hl⟩ := h
    by_cases hc : a.date = D
    · have hnil : l.filter (fun a => a.date == D) = [] := by
        rw [List.filter_eq_nil_iff]
        intro b hb
        simp only [beq_iff_eq]
        exact fun hbD => (ha b hb) (hc.trans hbD.symm)
      simp [List.filter_cons, hc, hnil]
    · simpa [List.filter_cons, hc] using ih hl

/-- C1: for every calendar day `D`, after any sequence of core operations
(daily resolution in either variant, queue add, status update, and the
mark-not-done cascade) run from a well-formed store, at most one
assignment record with `date = D` exists: every write path either goes
through the store's unique-date guard, only deletes records, or leaves
dates untouched. -/
theorem c1_assignment_date_unique (ops : List Op) (s : AppState) (hs : WF s) (D : Nat) :
    ((runOps ops s).assignments.filter (fun a => a.date == D)).length ≤ 1 :=
  length_filter_date_le_one _ (WF_runOps ops s hs).2.1 D

/-- A seeded store: the three seeded workers, no assignments, no queue. -/
def seededState : AppState :=
  ⟨[⟨0, "keromag", none⟩, ⟨1, "megatorg", none⟩, ⟨2, "baby-ch", none⟩], [], [], [], 10⟩

/-- Witness for C1 at a concrete operation sequence exercising every
operation kind. -/
theorem c1_assignment_date_unique_witness :
    ((runOps [Op.resolve 10, Op.queueAdd "s" "s" 1 3 10, Op.process 11,
        Op.setStatus "s" "s" 10 "not_done", Op.notDone "s" "s" 10 11, Op.resolve 12]
      seededState).assignments.filter (fun a => a.date == 11)).length ≤ 1 :=
  c1_assignment_date_unique _ seededState (by decide) 11

/-- C8: with no configured admin secret (`os.Getenv` returns the empty
string), `isAdminGo` returns false for every provided password, so every
admin action — queue add, status update, mark-not-done — is rejected as
unauthorized with the store untouched. -/
theorem c8_admin_fail_closed (pw : String) :
    isAdminGo "" pw = false ∧
    (∀ (wid : Nat) (dur : Int) (today : Nat) (s : AppState),
      queueAddHandler "" pw wid dur today s = (s, .error .unauthorized)) ∧
    (∀ (rid : Nat) (stStr : String) (s : AppState),
      statusUpdateHandler "" pw rid stStr s = (s, .error .unauthorized)) ∧
    (∀ (dd today : Nat) (s : AppState),
      markNotDoneHandler "" pw dd today s = (s, .error .unauthorized)) := by
  refine ⟨by simp [isAdminGo], ?_, ?_, ?_⟩
  · intro wid dur today s
    simp [queueAddHandler, isAdminGo]
  · intro rid stStr s
    simp [statusUpdateHandler, isAdminGo]
  · intro dd today s
    simp [markNotDoneHandler, isAdminGo]

/-- C9: an authorized enqueue with a duration outside 1..7 and an
authorized status update with an unknown status value both fail with the
invalid-input error and leave the store exactly as it was — no queue
record, no assignment change, no action-log record. -/
theorem c9_validation_no_writes :
    (∀ (env pw : String) (wid : Nat) (dur : Int) (today : Nat) (s : AppState),
      isAdminGo env pw = true → (dur < 1 ∨ 7 < dur) →
        queueAddHandler env pw wid dur today s = (s, .error .invalidInput)) ∧
    (∀ (env pw : String) (rid : Nat) (stStr : String) (s : AppState),
      isAdminGo env pw = true → statusOfString stStr = none →
        statusUpdateHandler env pw rid stStr s = (s, .error .invalidInput)) := by
  constructor
  · intro env pw wid dur today s hadmin hdur
    have hb : (dur < 1 || 7 < dur) = true := by
      rcases hdur with hdur | hdur <;> simp [hdur]
    simp [queueAddHandler, hadmin, queueAddCore, hb]
  · intro env pw rid stStr s hadmin hst
    simp [statusUpdateHandler, hadmin, statusUpdateCore, hst]

/-- Witness for C9: duration 8 and status "maybe" at a concrete state. -/
theorem c9_validation_no_writes_witness :
    queueAddHandler "x" "x" 0 8 10 seededState = (seededState, .error .invalidInput) ∧
    statusUpdateHandler "x" "x" 0 "maybe" seededState = (seededState, .error .invalidInput) :=
  ⟨c9_validation_no_writes.1 "x" "x" 0 8 10 seededState (by decide) (by decide),
   c9_validation_no_writes.2 "x" "x" 0 "maybe" seededState (by decide) (by decide)⟩

/-! ### Characterizations of the `ORDER BY ... LIMIT 1` queries -/

theorem foldl_pickMaxBy_some (key : α → Nat) :
    ∀ (l : List α) (b : α), ∃ q, l.foldl (pickMaxBy key) (some b) = some q ∧
      (q = b ∨ q ∈ l) ∧ key b ≤ key q ∧ ∀ x ∈ l, key x ≤ key q
  | [], b => ⟨b, rfl, Or.inl rfl, Nat.le_refl _, by simp⟩
  | x :: l, b => by
    simp only [List.foldl_cons, pickMaxBy]
    by_cases hc : key b < key x
    · simp only [if_pos hc]
      obtain ⟨q, h1, h2, h3, h4⟩ := foldl_pickMaxBy_some key l x
      refine ⟨q, h1, ?_, Nat.le_trans (Nat.le_of_lt hc) h3, ?_⟩
      · rcases h2 with h2 | h2
        · exact Or.inr (by rw [h2]; exact List.mem_cons_self x l)
        · exact Or.inr (List.mem_cons_of_mem x h2)
      · intro y hy
        rcases List.mem_cons.mp hy with hy | hy
        · rw [hy]; exact h3
        · exact h4 y hy
    · simp only [if_neg hc]
      obtain ⟨q, h1, h2, h3, h4⟩ := foldl_pickMaxBy_some key l b
      refine ⟨q, h1, ?_, h3, ?_⟩
      · rcases h2 with h2 | h2
        · exact Or.inl h2
        · exact Or.inr (List.mem_cons_of_mem x h2)
      · intro y hy
        rcases List.mem_cons.mp hy with hy | hy
        · rw [hy]; exact Nat.le_trans (Nat.le_of_not_lt hc) h3
        · exact h4 y hy

theorem findMaxBy_spec (key : α → Nat) (l : List α) (hne : l ≠ []) :
    ∃ q, findMaxBy key l = some q ∧ q ∈ l ∧ ∀ x ∈ l, key x ≤ key q := by
  match l with
  | [] => exact absurd rfl hne
  | x :: l =>
    obtain ⟨q, h1, h2, h3, h4⟩ := foldl_pickMaxBy_some key l x
    refine ⟨q, h1, ?_, ?_⟩
    · rcases h2 with h2 | h2
      · rw [h2]; exact List.mem_cons_self x l
      · exact List.mem_cons_of_mem x h2
    · intro y hy
      rcases List.mem_cons.mp hy with hy | hy
      · rw [hy]; exact h3
      · exact h4 y hy

@[simp] theorem findMaxBy_nil (key : α → Nat) : findMaxBy key ([] : List α) = none := rfl


theorem queueAddCore_valid (wid : Nat) (dur : Int) (today : Nat) (s : AppState)
    (hdurb : (dur < 1 || 7 < dur) = false) (w : Worker)
    (hwsome : findWorker s wid = some w) :
    queueAddCore wid dur today s =
      (appendLog (createQueueEntry s w.wid
          (if computeStart s today < today then today else computeStart s today)
          dur.toNat (computeOrder s)) .added_to_queue, .ok ()) := by
  rw [queueAddCore, hdurb]
  simp only [Bool.false_eq_true, if_false, hwsome]

/-- C6: a valid authorized enqueue (duration 1..7, existing worker)
appends exactly one queue entry whose start date is the day after the end
of the highest-order queue entry when the queue is non-empty, otherwise
the day after the latest assignment when that date is today-or-future,
otherwise today, in every case clamped to be no earlier than today; its
order is the highest existing order plus one, or 1 on an empty queue. -/
theorem c6_enqueue_start_and_order (env pw : String) (wid : Nat) (dur : Int)
    (today : Nat) (s : AppState) (hadmin : isAdminGo env pw = true)
    (hdur1 : 1 ≤ dur) (hdur7 : dur ≤ 7) (hw : (findWorker s wid).isSome) :
    ∃ e : QueueEntry,
      (queueAddHandler env pw wid dur today s).1.queue = s.queue ++ [e] ∧
      (queueAddHandler env pw wid dur today s).2 = .ok () ∧
      e.worker_id = wid ∧ e.duration_days = dur.toNat ∧
      (s.queue ≠ [] → ∃ q ∈ s.queue, (∀ x ∈ s.queue, x.order ≤ q.order) ∧
        e.start_date = max today (q.start_date + (q.duration_days - 1) + 1) ∧
        e.order = q.order + 1) ∧
      (s.queue = [] → e.order = 1 ∧
        (s.assignments = [] → e.start_date = today) ∧
        (s.assignments ≠ [] → ∃ a ∈ s.assignments, (∀ b ∈ s.assignments, b.date ≤ a.date) ∧
          e.start_date = if today ≤ a.date then a.date + 1 else today)) := by
  obtain ⟨w, hwsome⟩ := Option.isSome_iff_exists.mp hw
  have hwid : w.wid = wid := by
    have := List.find?_some hwsome
    simpa using this
  have hdurb : (dur < 1 || 7 < dur) = false := by
    have h1 : ¬ dur < 1 := by omega
    have h2 : ¬ 7 < dur := by omega
    simp [h1, h2]
  rw [queueAddHandler, if_pos hadmin, queueAddCore_valid wid dur today s hdurb w hwsome]
  refine ⟨⟨s.nextId, w.wid,
    (if computeStart s today < today then today else computeStart s today),
    dur.toNat, computeOrder s⟩, by simp, rfl, hwid, rfl, ?_, ?_⟩
  · intro hne
    obtain ⟨q, hq1, hq2, hq3⟩ := findMaxBy_spec (fun q => q.order) s.queue hne
    refine ⟨q, hq2, hq3, ?_, ?_⟩
    · show (if computeStart s today < today then today else computeStart s today) = _
      rw [computeStart, hq1]
      simp only [addDaysToYMDGo]
      rcases Nat.lt_or_ge (q.start_date + (q.duration_days - 1) + 1) today with hc | hc
      · rw [if_pos hc, Nat.max_eq_left (Nat.le_of_lt hc)]
      · rw [if_neg (Nat.not_lt.mpr hc), Nat.max_eq_right hc]
    · show computeOrder s = _
      rw [computeOrder, hq1]
  · intro hq
    have hqmax : findMaxBy (fun q : QueueEntry => q.order) s.queue = none := by
      rw [hq]; rfl
    refine ⟨by rw [computeOrder, hqmax], ?_, ?_⟩
    · intro ha
      have hamax : findMaxBy (fun a : Assignment => a.date) s.assignments = none := by
        rw [ha]; rfl
      have hcs : computeStart s today = today := by
        rw [computeStart, hqmax, hamax]
      show (if computeStart s today < today then today else computeStart s today) = today
      rw [hcs, if_neg (Nat.lt_irrefl today)]
    · intro ha
      obtain ⟨a, ha1, ha2, ha3⟩ := findMaxBy_spec (fun a => a.date) s.assignments ha
      refine ⟨a, ha2, ha3, ?_⟩
      have hcs : computeStart s today =
          if today ≤ a.date then a.date + 1 else today := by
        rw [computeStart, hqmax, ha1]
        simp only [addDaysToYMDGo]
      show (if computeStart s today < today then today else computeStart s today) = _
      rw [hcs]
      rcases le_or_lt today a.date with hc | hc
      · have hno : ¬ (a.date + 1 < today) := by omega
        rw [if_pos hc, if_neg hno]
      · rw [if_neg (Nat.not_le.mpr hc), if_neg (Nat.lt_irrefl today)]

/-! ### Rotation policy characterization -/

theorem ladLT_le_trans (x : Option Nat) (e d : Nat) (h1 : ladLT x (some e) = true)
    (h2 : e ≤ d) : ladLT x (some d) = true := by
  cases x with
  | none => rfl
  | some f =>
    simp only [ladLT, decide_eq_true_eq] at h1 ⊢
    omega

theorem ladLT_false_trans (x : Option Nat) (e d : Nat) (h1 : ladLT x (some e) = false)
    (h2 : d ≤ e) : ladLT x (some d) = false := by
  cases x with
  | none => exact absurd h1 (by simp [ladLT])
  | some f =>
    simp only [ladLT, decide_eq_false_iff_not] at h1 ⊢
    omega

theorem selectLoop_eq (ws : List Worker) : ∀ (c : Worker) (d : Nat),
    selectLoop ws (some c) (some d) =
      (match selectMin ws with
       | none => some c
       | some v => if ladLT v.last_assigned_date (some d) then some v else some c) := by
  induction ws with
  | nil => intro c d; rfl
  | cons w ws ih =>
    intro c d
    rw [selectLoop, selectMin]
    cases hw : w.last_assigned_date with
    | none => dsimp only; rw [hw]; rfl
    | some e =>
      dsimp only
      by_cases hlt : e < d
      · rw [if_pos hlt, ih w e]
        cases hm : selectMin ws with
        | none =>
          dsimp only
          have hwd : ladLT w.last_assigned_date (some d) = true := by
            rw [hw]; simp only [ladLT, decide_eq_true_eq]; exact hlt
          rw [if_pos hwd]
        | some v =>
          dsimp only
          by_cases hv : ladLT v.last_assigned_date (some e) = true
          · rw [if_pos hv]
            dsimp only
            rw [if_pos (ladLT_le_trans _ e d hv (Nat.le_of_lt hlt))]
          · rw [if_neg hv]
            dsimp only
            have hwd : ladLT w.last_assigned_date (some d) = true := by
              rw [hw]; simp only [ladLT, decide_eq_true_eq]; exact hlt
            rw [if_pos hwd]
      · rw [if_neg hlt, ih c d]
        cases hm : selectMin ws with
        | none =>
          dsimp only
          have hwd : ¬ ladLT w.last_assigned_date (some d) = true := by
            rw [hw]; simp only [ladLT, decide_eq_true_eq]; exact hlt
          rw [if_neg hwd]
        | some v =>
          dsimp only
          by_cases hv : ladLT v.last_assigned_date (some e) = true
          · rw [if_pos hv]
          · rw [if_neg hv]
            dsimp only
            have hvd : ladLT v.last_assigned_date (some d) = false :=
              ladLT_false_trans _ e d (by simpa using hv) (Nat.le_of_not_lt hlt)
            have hwd : ¬ ladLT w.last_assigned_date (some d) = true := by
              rw [hw]; simp only [ladLT, decide_eq_true_eq]; exact hlt
            rw [if_neg (show ¬ ladLT v.last_assigned_date (some d) = true by simp [hvd]),
              if_neg hwd]

theorem selectNext_eq_selectMin (ws : List Worker) : selectNext ws = selectMin ws := by
  cases ws with
  | nil => rfl
  | cons w ws =>
    rw [selectNext, selectLoop, selectMin]
    cases hw : w.last_assigned_date with
    | none => rfl
    | some e =>
      dsimp only
      rw [selectLoop_eq ws w e]
      cases hm : selectMin ws with
      | none => rfl
      | some v =>
        dsimp only
        by_cases hv : ladLT v.last_assigned_date (some e) = true
        · rw [if_pos hv]
        · rw [if_neg hv]

theorem selectMin_eq_none_iff (ws : List Worker) : selectMin ws = none ↔ ws = [] := by
  cases ws with
  | nil => simp [selectMin]
  | cons w ws =>
    simp only [selectMin]
    constructor
    · intro h
      exfalso
      cases hw : w.last_assigned_date with
      | none => rw [hw] at h; exact Option.noConfusion h
      | some e =>
        rw [hw] at h
        cases hm : selectMin ws with
        | none => rw [hm] at h; exact Option.noConfusion h
        | some v =>
          rw [hm] at h
          dsimp only at h
          by_cases hv : ladLT v.last_assigned_date (some e) = true
          · rw [if_pos hv] at h; exact Option.noConfusion h
          · rw [if_neg hv] at h; exact Option.noConfusion h
    · intro h; exact List.noConfusion h

theorem ladLE_of_ladLT (x y : Option Nat) (h : ladLT x y = true) : ladLE x y := by
  cases x <;> cases y <;> simp_all [ladLT, ladLE] <;> omega

theorem ladLE_of_not_ladLT (x y : Option Nat) (h : ladLT x y = false) : ladLE y x := by
  cases x <;> cases y <;> simp_all [ladLT, ladLE]

theorem not_ladLE_of_ladLT (x y : Option Nat) (h : ladLT x y = true) : ¬ ladLE y x := by
  cases x <;> cases y <;> simp_all [ladLT, ladLE] <;> omega

theorem ladLE_trans (x y z : Option Nat) (h1 : ladLE x y) (h2 : ladLE y z) : ladLE x z := by
  cases x <;> cases y <;> cases z <;> simp_all [ladLE] <;> omega

theorem ladLE_none (y : Option Nat) : ladLE none y := by
  simp [ladLE]

theorem selectMin_spec (ws : List Worker) :
    ∀ w, selectMin ws = some w →
      w ∈ ws ∧ (∀ x ∈ ws, ladLE w.last_assigned_date x.last_assigned_date) ∧
      ∃ l1 l2, ws = l1 ++ w :: l2 ∧
        ∀ x ∈ l1, ¬ ladLE x.last_assigned_date w.last_assigned_date := by
  induction ws with
  | nil => intro w h; exact Option.noConfusion h
  | cons a ws ih =>
    intro w h
    rw [selectMin] at h
    cases ha : a.last_assigned_date with
    | none =>
      rw [ha] at h
      cases h
      refine ⟨List.mem_cons_self _ _, ?_, [], ws, rfl, by simp⟩
      intro x hx
      rw [ha]
      exact ladLE_none _
    | some e =>
      rw [ha] at h
      cases hm : selectMin ws with
      | none =>
        rw [hm] at h
        cases h
        have hnil : ws = [] := (selectMin_eq_none_iff ws).mp hm
        subst hnil
        refine ⟨List.mem_cons_self _ _, ?_, [], [], rfl, by simp⟩
        intro x hx
        rcases List.mem_cons.mp hx with hx | hx
        · subst hx; rw [ha]; simp [ladLE]
        · exact absurd hx (List.not_mem_nil x)
      | some v =>
        rw [hm] at h
        obtain ⟨hvmem, hvmin, l1, l2, hsplit, hfirst⟩ := ih v hm
        dsimp only at h
        by_cases hv : ladLT v.last_assigned_date (some e) = true
        · rw [if_pos hv] at h
          cases h
          refine ⟨List.mem_cons_of_mem a hvmem, ?_, a :: l1, l2,
            by rw [hsplit, List.cons_append], ?_⟩
          · intro x hx
            rcases List.mem_cons.mp hx with hx | hx
            · subst hx; rw [ha]; exact ladLE_of_ladLT _ _ hv
            · exact hvmin x hx
          · intro x hx
            rcases List.mem_cons.mp hx with hx | hx
            · subst hx; rw [ha]; exact not_ladLE_of_ladLT _ _ hv
            · exact hfirst x hx
        · rw [if_neg hv] at h
          cases h
          have hev : ladLE a.last_assigned_date v.last_assigned_date := by
            rw [ha]
            exact ladLE_of_not_ladLT _ _ (Bool.not_eq_true _ ▸ hv)
          refine ⟨List.mem_cons_self _ _, ?_, [], ws, rfl, by simp⟩
          intro x hx
          rcases List.mem_cons.mp hx with hx | hx
          · subst hx; rw [ha]; simp [ladLE]
          · exact ladLE_trans _ _ _ hev (hvmin x hx)

/-- C7: the fallback rotation of `ensureDailyAssignmentGo` selects a
worker with the earliest `last_assigned_date`, a never-assigned worker
(absent date) preceding every worker with a recorded date, ties broken by
the stable roster order (the selected worker strictly precedes, in the
ordering, every worker listed before it); on an empty roster the
selection is empty and the resolver fails with the no-workers error. -/
theorem c7_rotation_least_recently_assigned (ws : List Worker) :
    (selectNext ws = none ↔ ws = []) ∧
    (∀ today (s : AppState), s.workers = [] → rotationAssign today s = (s, .error .noWorkers)) ∧
    ∀ w, selectNext ws = some w →
      w ∈ ws ∧ (∀ x ∈ ws, ladLE w.last_assigned_date x.last_assigned_date) ∧
      ∃ l1 l2, ws = l1 ++ w :: l2 ∧
        ∀ x ∈ l1, ¬ ladLE x.last_assigned_date w.last_assigned_date := by
  refine ⟨?_, ?_, ?_⟩
  · rw [selectNext_eq_selectMin]; exact selectMin_eq_none_iff ws
  · intro today s hw
    rw [rotationAssign]
    have : selectNext s.workers = none := by
      rw [selectNext_eq_selectMin, selectMin_eq_none_iff]; exact hw
    rw [this]
  · intro w h
    rw [selectNext_eq_selectMin] at h
    exact selectMin_spec ws w h

/-- Witness for C7 at a three-worker roster with a never-assigned worker. -/
theorem c7_rotation_least_recently_assigned_witness :
    (⟨1, "megatorg", none⟩ : Worker) ∈
        [⟨0, "keromag", some 5⟩, ⟨1, "megatorg", none⟩, ⟨2, "baby-ch", some 3⟩] ∧
      (∀ x ∈ [(⟨0, "keromag", some 5⟩ : Worker), ⟨1, "megatorg", none⟩, ⟨2, "baby-ch", some 3⟩],
        ladLE (none : Option Nat) x.last_assigned_date) ∧
      ∃ l1 l2, [(⟨0, "keromag", some 5⟩ : Worker), ⟨1, "megatorg", none⟩, ⟨2, "baby-ch", some 3⟩] =
          l1 ++ (⟨1, "megatorg", none⟩ : Worker) :: l2 ∧
        ∀ x ∈ l1, ¬ ladLE x.last_assigned_date (none : Option Nat) :=
  (c7_rotation_least_recently_assigned
      [⟨0, "keromag", some 5⟩, ⟨1, "megatorg", none⟩, ⟨2, "baby-ch", some 3⟩]).2.2
    ⟨1, "megatorg", none⟩ (by decide)

/-! ### Resolver lemmas (main.go variant) -/

theorem createTodayAndLog_of_free (today : Nat) (s : AppState) (wid : Nat)
    (h0 : ∀ b ∈ s.assignments, b.date ≠ today) :
    (createTodayAndLog today s wid).1.assignments =
      s.assignments ++ [⟨s.nextId, wid, today, .assigned⟩] ∧
    (createTodayAndLog today s wid).2 = .ok () := by
  have hguard : s.assignments.any (fun a => a.date == today) = false := by
    rw [List.any_eq_false]
    intro b hb
    simp only [beq_iff_eq]
    exact h0 b hb
  rw [createTodayAndLog, createAssignGuarded, hguard]
  simp

theorem selectNext_isSome_of_ne_nil (ws : List Worker) (h : ws ≠ []) :
    ∃ w, selectNext ws = some w := by
  cases hs : selectNext ws with
  | some w => exact ⟨w, rfl⟩
  | none =>
    rw [selectNext_eq_selectMin, selectMin_eq_none_iff] at hs
    exact absurd hs h

theorem rotationAssign_spec (today : Nat) (s : AppState)
    (h0 : ∀ b ∈ s.assignments, b.date ≠ today) (hw : s.workers ≠ []) :
    ∃ wid, (rotationAssign today s).1.assignments =
      s.assignments ++ [⟨s.nextId, wid, today, .assigned⟩] ∧
    (rotationAssign today s).2 = .ok () := by
  obtain ⟨w, hsel⟩ := selectNext_isSome_of_ne_nil s.workers hw
  rw [rotationAssign, hsel]
  refine ⟨w.wid, ?_⟩
  have := createTodayAndLog_of_free today (setWorkerLad s w.wid (some today)) w.wid
    (by rw [setWorkerLad_assignments]; exact h0)
  rw [setWorkerLad_assignments, setWorkerLad_nextId] at this
  exact this

theorem resolveAssign_spec (today : Nat) (s : AppState)
    (h0 : ∀ b ∈ s.assignments, b.date ≠ today) (hw : s.workers ≠ []) :
    ∃ wid, (resolveAssign today s).1.assignments =
      s.assignments ++ [⟨s.nextId, wid, today, .assigned⟩] ∧
    (resolveAssign today s).2 = .ok () := by
  rw [resolveAssign]
  cases hq : dueQueueEntry s.queue today with
  | none => exact rotationAssign_spec today s h0 hw
  | some q =>
    dsimp only
    cases hfw : findWorker s q.worker_id with
    | none => exact rotationAssign_spec today s h0 hw
    | some w =>
      dsimp only
      refine ⟨w.wid, ?_⟩
      have := createTodayAndLog_of_free today
        (deleteQueue (setWorkerLad s w.wid (some today)) q.qid) w.wid
        (by rw [deleteQueue_assignments, setWorkerLad_assignments]; exact h0)
      rw [deleteQueue_assignments, setWorkerLad_assignments, deleteQueue_nextId,
        setWorkerLad_nextId] at this
      exact this

theorem date_ne_of_mem_of_ne (l : List Assignment) (hd : pairwiseDate l)
    (a b : Assignment) (hma : a ∈ l) (hmb : b ∈ l) (hne : a ≠ b) : a.date ≠ b.date := by
  rw [pairwiseDate] at hd
  have hsymm : Symmetric (fun p q : Assignment => p.date ≠ q.date) :=
    fun x y h hc => h hc.symm
  exact List.Pairwise.forall hsymm hd hma hmb hne

theorem ensureDailyAssignmentGo_noop (today : Nat) (s : AppState) (a : Assignment)
    (ha : s.assignments.find? (fun x => x.date == today) = some a)
    (hst : a.status ≠ .not_done) :
    ensureDailyAssignmentGo today s = (s, .ok ()) := by
  rw [ensureDailyAssignmentGo, ha]
  dsimp only
  rw [if_neg hst]

theorem ensureDailyAssignmentGo_self_heal (today : Nat) (s : AppState) (hWF : WF s)
    (a : Assignment) (ha : s.assignments.find? (fun x => x.date == today) = some a)
    (hst : a.status = .not_done) (hw : s.workers ≠ []) :
    (∀ b ∈ (ensureDailyAssignmentGo today s).1.assignments, b.aid ≠ a.aid) ∧
    (∃ b ∈ (ensureDailyAssignmentGo today s).1.assignments,
      b.date = today ∧ b.status = .assigned) ∧
    (ensureDailyAssignmentGo today s).2 = .ok () := by
  have hamem : a ∈ s.assignments := List.mem_of_find?_eq_some ha
  have hadate : a.date = today := by
    have := List.find?_some ha
    simpa using this
  rw [ensureDailyAssignmentGo, ha]
  dsimp only
  rw [if_pos hst]
  have h0 : ∀ b ∈ (deleteAssign s a.aid).assignments, b.date ≠ today := by
    intro b hb
    rw [deleteAssign_assignments, List.mem_filter] at hb
    obtain ⟨hbmem, hbne⟩ := hb
    simp only [bne_iff_ne, ne_eq] at hbne
    have : b ≠ a := fun hc => hbne (by rw [hc])
    rw [← hadate]
    exact date_ne_of_mem_of_ne s.assignments hWF.2.1 b a hbmem hamem this
  obtain ⟨wid, heq, hok⟩ := resolveAssign_spec today (deleteAssign s a.aid) h0
    (by rw [deleteAssign_workers]; exact hw)
  refine ⟨?_, ?_, hok⟩
  · intro b hb
    rw [heq, List.mem_append] at hb
    rcases hb with hb | hb
    · rw [deleteAssign_assignments, List.mem_filter] at hb
      simpa using hb.2
    · simp only [List.mem_singleton] at hb
      subst hb
      rw [deleteAssign_nextId]
      exact fun hc => absurd (hc ▸ hWF.2.2 a hamem) (Nat.lt_irrefl _)
  · refine ⟨⟨(deleteAssign s a.aid).nextId, wid, today, .assigned⟩, ?_, rfl, rfl⟩
    rw [heq]
    exact List.mem_append_right _ (List.mem_singleton_self _)

/-- C2: when today's assignment exists with status `assigned` or `done`,
`ensureDailyAssignmentGo` returns with the store unchanged — no new
assignment, no status change, no queue entry consumed, noworker history
write — so a second invocation yields the same single assignment; when it
exists with status `not_done`, the record is deleted and today is
reassigned through the queue or the rotation, leaving an `assigned`
record for today. -/
theorem c2_resolver_idempotent_and_self_healing (today : Nat) (s : AppState) (hWF : WF s)
    (a : Assignment) (ha : s.assignments.find? (fun x => x.date == today) = some a) :
    ((a.status = .assigned ∨ a.status = .done) →
      ensureDailyAssignmentGo today s = (s, .ok ())) ∧
    (a.status = .not_done → s.workers ≠ [] →
      (∀ b ∈ (ensureDailyAssignmentGo today s).1.assignments, b.aid ≠ a.aid) ∧
      (∃ b ∈ (ensureDailyAssignmentGo today s).1.assignments,
        b.date = today ∧ b.status = .assigned) ∧
      (ensureDailyAssignmentGo today s).2 = .ok ()) := by
  constructor
  · intro hst
    refine ensureDailyAssignmentGo_noop today s a ha ?_
    rcases hst with hst | hst <;> rw [hst] <;> intro hc <;> exact Status.noConfusion hc
  · intro hst hw
    exact ensureDailyAssignmentGo_self_heal today s hWF a ha hst hw

/-- Witness for C2 at a store whose today assignment is `assigned`. -/
theorem c2_resolver_idempotent_and_self_healing_witness :
    ensureDailyAssignmentGo 10 ⟨[⟨0, "keromag", none⟩], [⟨1, 0, 10, .assigned⟩], [], [], 2⟩ =
      (⟨[⟨0, "keromag", none⟩], [⟨1, 0, 10, .assigned⟩], [], [], 2⟩, .ok ()) :=
  (c2_resolver_idempotent_and_self_healing 10
      ⟨[⟨0, "keromag", none⟩], [⟨1, 0, 10, .assigned⟩], [], [], 2⟩ (by decide)
      ⟨1, 0, 10, .assigned⟩ (by decide)).1 (Or.inl rfl)

/-- C10: with today's unique assignment holding status `done` or
`not_done`, the current-assignee fetch — which filters on
`status = 'assigned'` — returns nothing, and for a day resolved `done`
the whole endpoint (resolver then fetch) answers not-found. -/
theorem c10_current_assignee_done_not_found (today : Nat) (s : AppState) (hWF : WF s)
    (a : Assignment) (ha : s.assignments.find? (fun x => x.date == today) = some a)
    (hst : a.status = .done ∨ a.status = .not_done) :
    currentAssigneeFetch today s = none ∧
    (a.status = .done → currentAssigneeEndpoint today s = (s, none)) := by
  have hamem : a ∈ s.assignments := List.mem_of_find?_eq_some ha
  have hadate : a.date = today := by
    have := List.find?_some ha
    simpa using this
  have hfetch : currentAssigneeFetch today s = none := by
    rw [currentAssigneeFetch, List.find?_eq_none]
    intro b hb
    simp only [Bool.and_eq_true, beq_iff_eq, not_and]
    intro hbd
    by_cases hab : b = a
    · subst hab
      rcases hst with hst | hst <;> rw [hst] <;> intro hc <;> exact Status.noConfusion hc
    · exact absurd (hbd.trans hadate.symm)
        (date_ne_of_mem_of_ne s.assignments hWF.2.1 b a hb hamem hab)
  refine ⟨hfetch, ?_⟩
  intro hdone
  have hnoop : ensureDailyAssignmentGo today s = (s, .ok ()) := by
    refine ensureDailyAssignmentGo_noop today s a ha ?_
    rw [hdone]
    intro hc
    exact Status.noConfusion hc
  rw [currentAssigneeEndpoint, hnoop]
  exact congrArg _ hfetch

/-- Witness for C10 at a store whose today assignment is `done`. -/
theorem c10_current_assignee_done_not_found_witness :
    currentAssigneeFetch 10 ⟨[⟨0, "keromag", some 10⟩], [⟨1, 0, 10, .done⟩], [], [], 2⟩ = none ∧
    currentAssigneeEndpoint 10 ⟨[⟨0, "keromag", some 10⟩], [⟨1, 0, 10, .done⟩], [], [], 2⟩ =
      (⟨[⟨0, "keromag", some 10⟩], [⟨1, 0, 10, .done⟩], [], [], 2⟩, none) :=
  ⟨(c10_current_assignee_done_not_found 10
      ⟨[⟨0, "keromag", some 10⟩], [⟨1, 0, 10, .done⟩], [], [], 2⟩ (by decide)
      ⟨1, 0, 10, .done⟩ (by decide) (Or.inl rfl)).1,
   (c10_current_assignee_done_not_found 10
      ⟨[⟨0, "keromag", some 10⟩], [⟨1, 0, 10, .done⟩], [], [], 2⟩ (by decide)
      ⟨1, 0, 10, .done⟩ (by decide) (Or.inl rfl)).2 rfl⟩

/-! ### Membership and frame lemmas for the write primitives -/

theorem aid_ne_of_mem_of_ne (l : List Assignment) (ha : pairwiseAid l)
    (a b : Assignment) (hma : a ∈ l) (hmb : b ∈ l) (hne : a ≠ b) : a.aid ≠ b.aid := by
  rw [pairwiseAid] at ha
  have hsymm : Symmetric (fun p q : Assignment => p.aid ≠ q.aid) :=
    fun x y h hc => h hc.symm
  exact List.Pairwise.forall hsymm ha hma hmb hne

theorem eq_of_mem_of_aid_eq (l : List Assignment) (ha : pairwiseAid l)
    (a b : Assignment) (hma : a ∈ l) (hmb : b ∈ l) (haid : a.aid = b.aid) : a = b := by
  by_contra hne
  exact aid_ne_of_mem_of_ne l ha a b hma hmb hne haid

theorem eq_of_mem_of_date_eq (l : List Assignment) (hd : pairwiseDate l)
    (a b : Assignment) (hma : a ∈ l) (hmb : b ∈ l) (hdate : a.date = b.date) : a = b := by
  by_contra hne
  exact date_ne_of_mem_of_ne l hd a b hma hmb hne hdate

theorem mem_setAssignStatus_self (s : AppState) (rid : Nat) (st : Status)
    (a : Assignment) (ha : a ∈ s.assignments) (haid : a.aid = rid) :
    { a with status := st } ∈ (setAssignStatus s rid st).assignments := by
  rw [setAssignStatus_assignments]
  refine List.mem_map.mpr ⟨a, ha, ?_⟩
  rw [if_pos haid]

theorem mem_setAssignStatus_other (s : AppState) (rid : Nat) (st : Status)
    (b : Assignment) (hb : b ∈ s.assignments) (hne : b.aid ≠ rid) :
    b ∈ (setAssignStatus s rid st).assignments := by
  rw [setAssignStatus_assignments]
  refine List.mem_map.mpr ⟨b, hb, ?_⟩
  rw [if_neg hne]

theorem setAssignStatus_mem_inv (s : AppState) (rid : Nat) (st : Status)
    (b : Assignment) (hb : b ∈ (setAssignStatus s rid st).assignments) :
    ∃ c ∈ s.assignments, b = if c.aid = rid then { c with status := st } else c := by
  rw [setAssignStatus_assignments] at hb
  obtain ⟨c, hc, hbc⟩ := List.mem_map.mp hb
  exact ⟨c, hc, hbc.symm⟩

theorem setAssignDateGuarded_mem_keep (s : AppState) (rid : Nat) (nd : Nat)
    (b : Assignment) (hb : b ∈ s.assignments) (hne : b.aid ≠ rid) :
    b ∈ (setAssignDateGuarded s rid nd).assignments := by
  unfold setAssignDateGuarded
  split
  · exact hb
  · exact List.mem_map.mpr ⟨b, hb, by rw [if_neg hne]⟩

theorem setAssignDateGuarded_mem_fields (s : AppState) (rid : Nat) (nd : Nat)
    (b : Assignment) (hb : b ∈ s.assignments) :
    ∃ b' ∈ (setAssignDateGuarded s rid nd).assignments,
      b'.aid = b.aid ∧ b'.status = b.status ∧ b'.worker_id = b.worker_id := by
  unfold setAssignDateGuarded
  split
  · exact ⟨b, hb, rfl, rfl, rfl⟩
  · refine ⟨if b.aid = rid then { b with date := nd } else b,
      List.mem_map.mpr ⟨b, hb, rfl⟩, ?_⟩
    by_cases hc : b.aid = rid <;> simp [hc]

theorem setAssignDateGuarded_mem_aid_inv (s : AppState) (rid : Nat) (nd : Nat)
    (b' : Assignment) (hb' : b' ∈ (setAssignDateGuarded s rid nd).assignments) :
    ∃ b ∈ s.assignments, b'.aid = b.aid := by
  revert hb'
  unfold setAssignDateGuarded
  split
  · intro hb'; exact ⟨b', hb', rfl⟩
  · intro hb'
    obtain ⟨c, hc, hbc⟩ := List.mem_map.mp hb'
    refine ⟨c, hc, ?_⟩
    rw [← hbc]
    by_cases h1 : c.aid = rid <;> simp [h1]

theorem shiftAssignmentsLoop_mem_keep (fetched : List Assignment) :
    ∀ (s : AppState) (b : Assignment), b ∈ s.assignments →
      (∀ a ∈ fetched, a.aid ≠ b.aid) →
      b ∈ (shiftAssignmentsLoop s fetched).assignments := by
  induction fetched with
  | nil => intro s b hb _; exact hb
  | cons a fetched ih =>
    intro s b hb hne
    rw [shiftAssignmentsLoop, List.foldl_cons]
    refine ih _ b ?_ (fun x hx => hne x (List.mem_cons_of_mem a hx))
    exact setAssignDateGuarded_mem_keep s a.aid _ b hb
      (fun hc => hne a (List.mem_cons_self a fetched) hc.symm)

theorem shiftAssignmentsLoop_mem_fields (fetched : List Assignment) :
    ∀ (s : AppState) (b : Assignment), b ∈ s.assignments →
      ∃ b' ∈ (shiftAssignmentsLoop s fetched).assignments,
        b'.aid = b.aid ∧ b'.status = b.status ∧ b'.worker_id = b.worker_id := by
  induction fetched with
  | nil => intro s b hb; exact ⟨b, hb, rfl, rfl, rfl⟩
  | cons a fetched ih =>
    intro s b hb
    rw [shiftAssignmentsLoop, List.foldl_cons]
    obtain ⟨b1, hb1, h1a, h1s, h1w⟩ :=
      setAssignDateGuarded_mem_fields s a.aid _ b hb
    obtain ⟨b2, hb2, h2a, h2s, h2w⟩ := ih _ b1 hb1
    exact ⟨b2, hb2, h2a.trans h1a, h2s.trans h1s, h2w.trans h1w⟩

theorem shiftAssignmentsLoop_no_aid (fetched : List Assignment) :
    ∀ (s : AppState) (x : Nat), (∀ b ∈ s.assignments, b.aid ≠ x) →
      ∀ b' ∈ (shiftAssignmentsLoop s fetched).assignments, b'.aid ≠ x := by
  induction fetched with
  | nil => intro s x h b' hb'; exact h b' hb'
  | cons a fetched ih =>
    intro s x h b' hb'
    rw [shiftAssignmentsLoop, List.foldl_cons] at hb'
    refine ih _ x ?_ b' hb'
    intro c hc
    obtain ⟨c0, hc0, hcaid⟩ := setAssignDateGuarded_mem_aid_inv s a.aid _ c hc
    rw [hcaid]
    exact h c0 hc0

@[simp] theorem shiftQueueLoop_assignments (today : Nat) (fetched : List QueueEntry) :
    ∀ (s : AppState), (shiftQueueLoop today s fetched).assignments = s.assignments := by
  induction fetched with
  | nil => intro s; rfl
  | cons q fetched ih =>
    intro s
    rw [shiftQueueLoop, List.foldl_cons]
    split
    · exact (ih _).trans (setQueueStart_assignments s q.qid _)
    · exact ih s

@[simp] theorem shiftQueueLoop_workers (today : Nat) (fetched : List QueueEntry) :
    ∀ (s : AppState), (shiftQueueLoop today s fetched).workers = s.workers := by
  induction fetched with
  | nil => intro s; rfl
  | cons q fetched ih =>
    intro s
    rw [shiftQueueLoop, List.foldl_cons]
    split
    · exact (ih _).trans (setQueueStart_workers s q.qid _)
    · exact ih s

@[simp] theorem shiftAssignmentsLoop_workers (fetched : List Assignment) :
    ∀ (s : AppState), (shiftAssignmentsLoop s fetched).workers = s.workers := by
  induction fetched with
  | nil => intro s; rfl
  | cons a fetched ih =>
    intro s
    rw [shiftAssignmentsLoop, List.foldl_cons]
    exact (ih _).trans (setAssignDateGuarded_workers s a.aid _)

@[simp] theorem doShifts_workers (today : Nat) (s : AppState) :
    (doShifts today s).workers = s.workers := by
  rw [doShifts]
  rw [shiftQueueLoop_workers, shiftAssignmentsLoop_workers]

theorem WF_shiftAssignmentsLoop (fetched : List Assignment) (s : AppState) (h : WF s) :
    WF (shiftAssignmentsLoop s fetched) :=
  foldl_preserves (fun t a ht => WF_setAssignDateGuarded t a.aid _ ht) fetched s h

theorem mem_insSorted (lt : α → α → Bool) (a x : α) :
    ∀ (l : List α), x ∈ insSorted lt a l ↔ x = a ∨ x ∈ l := by
  intro l
  induction l with
  | nil => simp [insSorted]
  | cons b bs ih =>
    rw [insSorted]
    split
    · simp [List.mem_cons]
    · rw [List.mem_cons, ih, List.mem_cons]
      tauto

theorem mem_sortBy (lt : α → α → Bool) (x : α) :
    ∀ (l : List α), x ∈ sortBy lt l ↔ x ∈ l := by
  intro l
  induction l with
  | nil => simp [sortBy]
  | cons a l ih =>
    rw [sortBy, mem_insSorted, ih, List.mem_cons]

/-! ### The multi-day queue-consumption loop (part_000) -/

@[simp] theorem assignOneDay_queue (s : AppState) (wid d : Nat) :
    (assignOneDay s wid d).queue = s.queue := by
  unfold assignOneDay
  split
  · split
    · rfl
    · rfl
  · exact createAssignGuarded_queue s wid d .assigned

@[simp] theorem assignOneDay_workers (s : AppState) (wid d : Nat) :
    (assignOneDay s wid d).workers = s.workers := by
  unfold assignOneDay
  split
  · split
    · rfl
    · rfl
  · exact createAssignGuarded_workers s wid d .assigned

@[simp] theorem assignOneDay_log (s : AppState) (wid d : Nat) :
    (assignOneDay s wid d).log = s.log := by
  unfold assignOneDay
  split
  · split
    · rfl
    · rfl
  · exact createAssignGuarded_log s wid d .assigned

theorem assignOneDay_preserve_other (s : AppState) (wid d : Nat)
    (hWFa : pairwiseAid s.assignments) (b : Assignment) (hb : b ∈ s.assignments)
    (hbd : b.date ≠ d) : b ∈ (assignOneDay s wid d).assignments := by
  unfold assignOneDay
  split
  · next ex hex =>
    have hexmem : ex ∈ s.assignments := List.mem_of_find?_eq_some hex
    have hexp := List.find?_some hex
    simp only [Bool.and_eq_true, beq_iff_eq] at hexp
    have hne : b ≠ ex := fun hc => hbd (by rw [hc]; exact hexp.2)
    split
    · exact mem_setAssignStatus_other s ex.aid .assigned b hb
        (aid_ne_of_mem_of_ne s.assignments hWFa b ex hb hexmem hne)
    · exact hb
  · rw [createAssignGuarded]
    split
    · exact hb
    · exact List.mem_append_left _ hb

theorem assignOneDay_new_mem (s : AppState) (wid d : Nat)
    (hall : ∀ b ∈ s.assignments, b.date = d → b.worker_id = wid) :
    ∃ b ∈ (assignOneDay s wid d).assignments,
      b.date = d ∧ b.worker_id = wid ∧ b.status = .assigned := by
  unfold assignOneDay
  split
  · next ex hex =>
    have hexmem : ex ∈ s.assignments := List.mem_of_find?_eq_some hex
    have hexp := List.find?_some hex
    simp only [Bool.and_eq_true, beq_iff_eq] at hexp
    split
    · exact ⟨{ ex with status := .assigned },
        mem_setAssignStatus_self s ex.aid .assigned ex hexmem rfl,
        hexp.2, hexp.1, rfl⟩
    · next hst =>
      rw [Decidable.not_not] at hst
      exact ⟨ex, hexmem, hexp.2, hexp.1, hst⟩
  · next hnone =>
    have hfree : ∀ b ∈ s.assignments, ¬ b.date = d := by
      intro b hb hbd
      have := List.find?_eq_none.mp hnone b hb
      simp only [Bool.and_eq_true, beq_iff_eq, not_and] at this
      exact this (hall b hb hbd) hbd
    have hguard : s.assignments.any (fun a => a.date == d) = false := by
      rw [List.any_eq_false]
      intro b hb
      simp only [beq_iff_eq]
      exact hfree b hb
    rw [createAssignGuarded, hguard]
    exact ⟨⟨s.nextId, wid, d, .assigned⟩,
      by simp, rfl, rfl, rfl⟩

theorem assignOneDay_mem_inv (s : AppState) (wid d : Nat)
    (hWFa : pairwiseAid s.assignments) (b : Assignment)
    (hb : b ∈ (assignOneDay s wid d).assignments) :
    b ∈ s.assignments ∨ b.worker_id = wid := by
  revert hb
  unfold assignOneDay
  split
  · next ex hex =>
    have hexmem : ex ∈ s.assignments := List.mem_of_find?_eq_some hex
    have hexp := List.find?_some hex
    simp only [Bool.and_eq_true, beq_iff_eq] at hexp
    split
    · intro hb
      obtain ⟨c, hc, hbc⟩ := setAssignStatus_mem_inv s ex.aid .assigned b hb
      by_cases h1 : c.aid = ex.aid
      · right
        have hce : c = ex := eq_of_mem_of_aid_eq s.assignments hWFa c ex hc hexmem h1
        rw [hbc, if_pos h1, hce]
        exact hexp.1
      · left
        rw [hbc, if_neg h1]
        exact hc
    · intro hb; exact Or.inl hb
  · rw [createAssignGuarded]
    split
    · intro hb; exact Or.inl hb
    · intro hb
      rcases List.mem_append.mp hb with hb | hb
      · exact Or.inl hb
      · right
        simp only [List.mem_singleton] at hb
        rw [hb]

theorem spanLoop_mem_inv (wid eff : Nat) :
    ∀ (n : Nat) (s : AppState), WF s →
      ∀ b ∈ ((List.range n).foldl
          (fun t i => assignOneDay t wid (addDaysToYMDGo eff i)) s).assignments,
        b ∈ s.assignments ∨ b.worker_id = wid := by
  intro n
  induction n with
  | zero => intro s _ b hb; exact Or.inl hb
  | succ n ih =>
    intro s hWF b hb
    rw [List.range_succ, List.foldl_append, List.foldl_cons, List.foldl_nil] at hb
    have hWFn : WF ((List.range n).foldl
        (fun t i => assignOneDay t wid (addDaysToYMDGo eff i)) s) :=
      foldl_preserves (fun t i ht => WF_assignOneDay t wid _ ht) _ s hWF
    rcases assignOneDay_mem_inv _ wid _ hWFn.1 b hb with hb | hb
    · exact ih s hWF b hb
    · exact Or.inr hb

theorem spanLoop_spec (wid eff : Nat) :
    ∀ (n : Nat) (s : AppState), WF s →
      (∀ b ∈ s.assignments, eff ≤ b.date → b.date < eff + n → b.worker_id = wid) →
      ∀ i < n, ∃ b ∈ ((List.range n).foldl
          (fun t i => assignOneDay t wid (addDaysToYMDGo eff i)) s).assignments,
        b.date = eff + i ∧ b.worker_id = wid ∧ b.status = .assigned := by
  intro n
  induction n with
  | zero => intro s _ _ i hi; exact absurd hi (Nat.not_lt_zero i)
  | succ n ih =>
    intro s hWF hall i hi
    rw [List.range_succ, List.foldl_append, List.foldl_cons, List.foldl_nil]
    have hWFn : WF ((List.range n).foldl
        (fun t i => assignOneDay t wid (addDaysToYMDGo eff i)) s) :=
      foldl_preserves (fun t i ht => WF_assignOneDay t wid _ ht) _ s hWF
    rcases Nat.lt_or_ge i n with hin | hin
    · obtain ⟨b, hb, hbd, hbw, hbs⟩ := ih s hWF
        (fun b hb h1 h2 => hall b hb h1 (Nat.lt_succ_of_lt h2)) i hin
      refine ⟨b, ?_, hbd, hbw, hbs⟩
      refine assignOneDay_preserve_other _ wid _ hWFn.1 b hb ?_
      rw [hbd]
      simp only [addDaysToYMDGo]
      omega
    · have hieq : i = n := by omega
      rw [hieq]
      have hall2 : ∀ b ∈ ((List.range n).foldl
          (fun t i => assignOneDay t wid (addDaysToYMDGo eff i)) s).assignments,
          b.date = addDaysToYMDGo eff n → b.worker_id = wid := by
        intro b hb hbd
        rcases spanLoop_mem_inv wid eff n s hWF b hb with hb0 | hb0
        · refine hall b hb0 ?_ ?_
          · rw [hbd]; simp only [addDaysToYMDGo]; omega
          · rw [hbd]; simp only [addDaysToYMDGo]; omega
        · exact hb0
      obtain ⟨b, hb, hbd, hbw, hbs⟩ := assignOneDay_new_mem _ wid _ hall2
      exact ⟨b, hb, by rw [hbd]; simp [addDaysToYMDGo], hbw, hbs⟩

@[simp] theorem deleteQueue_queue (s : AppState) (rid : Nat) :
    (deleteQueue s rid).queue = s.queue.filter (fun q => q.qid != rid) := rfl

theorem processDailyAssignments_queue_branch (today : Nat) (s : AppState)
    (hnota : s.assignments.find? (fun a => a.date == today && a.status == Status.assigned) = none)
    (q : QueueEntry) (hq : dueQueueEntry s.queue today = some q)
    (w : Worker) (hfw : findWorker s q.worker_id = some w) :
    processDailyAssignments today s =
      (appendLog (setWorkerLad (deleteQueue ((List.range q.duration_days).foldl
          (fun t i => assignOneDay t w.wid
            (addDaysToYMDGo (if q.start_date < today then today else q.start_date) i)) s)
          q.qid) w.wid
        (some (addDaysToYMDGo (if q.start_date < today then today else q.start_date)
          (q.duration_days - 1)))) .queue_processed, .ok ()) := by
  rw [processDailyAssignments, hnota]
  dsimp only
  rw [hq]
  dsimp only
  rw [hfw]

/-- C3 counterexample: two concrete stores with a due queue entry where
the claim fails.  In the first, today already holds an `assigned`
assignment, so the resolver returns without consuming the due entry or
logging `queue_processed`.  In the second, a span day is occupied by a
different worker's `done` assignment; the loop checks for an existing
assignment of the *queue entry's* worker only, so the insert hits the
unique-date index and the day keeps the other worker's `done` record
instead of becoming `assigned`. -/
theorem c3_queue_consumption_counterexample :
    (dueQueueEntry [⟨5, 1, 10, 1, 1⟩] 10 = some ⟨5, 1, 10, 1, 1⟩ ∧
      (processDailyAssignments 10
        ⟨[⟨1, "a", none⟩, ⟨2, "b", none⟩], [⟨1, 2, 10, .assigned⟩],
          [⟨5, 1, 10, 1, 1⟩], [], 10⟩).1.queue = [⟨5, 1, 10, 1, 1⟩] ∧
      (processDailyAssignments 10
        ⟨[⟨1, "a", none⟩, ⟨2, "b", none⟩], [⟨1, 2, 10, .assigned⟩],
          [⟨5, 1, 10, 1, 1⟩], [], 10⟩).1.log = []) ∧
    (dueQueueEntry [⟨5, 1, 10, 2, 1⟩] 10 = some ⟨5, 1, 10, 2, 1⟩ ∧
      ∀ a ∈ (processDailyAssignments 10
        ⟨[⟨1, "a", none⟩, ⟨2, "b", none⟩], [⟨1, 2, 11, .done⟩],
          [⟨5, 1, 10, 2, 1⟩], [], 10⟩).1.assignments,
        a.date = 11 → a.worker_id = 2 ∧ a.status = .done) := by
  refine ⟨⟨?_, ?_, ?_⟩, ?_, ?_⟩ <;> decide

/-- C3 (amended): when no `assigned` assignment exists for today, a due
queue entry exists (lowest order with start date on or before today) with
an existing worker, and no span day is occupied by a different worker's
assignment, the resolver ensures an `assigned` assignment of the entry's
worker for each of the entry's duration days, starting from its start
date clamped to today; it sets that worker's `last_assigned_date` to the
last day of the span, deletes the queue entry, and logs
`queue_processed`.  (A span day occupied by another worker is left
unchanged: the insert fails on the unique-date index.) -/
theorem c3_queue_consumption_span (today : Nat) (s : AppState) (hWF : WF s)
    (hnota : s.assignments.find? (fun a => a.date == today && a.status == Status.assigned) = none)
    (q : QueueEntry) (hq : dueQueueEntry s.queue today = some q)
    (w : Worker) (hfw : findWorker s q.worker_id = some w)
    (hspan : ∀ b ∈ s.assignments,
      (if q.start_date < today then today else q.start_date) ≤ b.date →
      b.date < (if q.start_date < today then today else q.start_date) + q.duration_days →
      b.worker_id = w.wid) :
    (∀ i < q.duration_days, ∃ b ∈ (processDailyAssignments today s).1.assignments,
      b.date = (if q.start_date < today then today else q.start_date) + i ∧
      b.worker_id = w.wid ∧ b.status = .assigned) ∧
    (∀ e ∈ (processDailyAssignments today s).1.queue, e.qid ≠ q.qid) ∧
    (∀ u ∈ (processDailyAssignments today s).1.workers, u.wid = w.wid →
      u.last_assigned_date = some ((if q.start_date < today then today else q.start_date) +
        (q.duration_days - 1))) ∧
    (processDailyAssignments today s).1.log = s.log ++ [.queue_processed] ∧
    (processDailyAssignments today s).2 = .ok () := by
  rw [processDailyAssignments_queue_branch today s hnota q hq w hfw]
  have hqpres : ((List.range q.duration_days).foldl
      (fun t i => assignOneDay t w.wid
        (addDaysToYMDGo (if q.start_date < today then today else q.start_date) i)) s).queue
      = s.queue := by
    refine foldl_preserves (P := fun t => t.queue = s.queue) ?_ _ s rfl
    intro t i ht
    rw [assignOneDay_queue]
    exact ht
  have hlpres : ((List.range q.duration_days).foldl
      (fun t i => assignOneDay t w.wid
        (addDaysToYMDGo (if q.start_date < today then today else q.start_date) i)) s).log
      = s.log := by
    refine foldl_preserves (P := fun t => t.log = s.log) ?_ _ s rfl
    intro t i ht
    rw [assignOneDay_log]
    exact ht
  refine ⟨?_, ?_, ?_, ?_, rfl⟩
  · intro i hi
    simp only [appendLog_assignments, setWorkerLad_assignments, deleteQueue_assignments]
    exact spanLoop_spec w.wid _ q.duration_days s hWF hspan i hi
  · intro e he
    simp only [appendLog_queue, setWorkerLad_queue, deleteQueue_queue] at he
    rw [hqpres] at he
    rw [List.mem_filter] at he
    simpa using he.2
  · intro u hu huw
    simp only [appendLog_workers, setWorkerLad_workers] at hu
    obtain ⟨v, _, hvu⟩ := List.mem_map.mp hu
    by_cases hv : v.wid = w.wid
    · rw [← hvu, if_pos hv]
      simp [addDaysToYMDGo]
    · exfalso
      rw [← hvu, if_neg hv] at huw
      exact hv huw
  · simp only [appendLog]
    rw [setWorkerLad_log, deleteQueue_log, hlpres]

/-- Witness for the amended C3 at a store with one due two-day entry. -/
theorem c3_queue_consumption_span_witness :
    (∀ i < (2 : Nat), ∃ b ∈ (processDailyAssignments 10
        ⟨[⟨1, "a", none⟩], [], [⟨5, 1, 10, 2, 1⟩], [], 10⟩).1.assignments,
      b.date = (if (10 : Nat) < 10 then 10 else 10) + i ∧
      b.worker_id = 1 ∧ b.status = .assigned) ∧
    (∀ e ∈ (processDailyAssignments 10
        ⟨[⟨1, "a", none⟩], [], [⟨5, 1, 10, 2, 1⟩], [], 10⟩).1.queue, e.qid ≠ 5) ∧
    (∀ u ∈ (processDailyAssignments 10
        ⟨[⟨1, "a", none⟩], [], [⟨5, 1, 10, 2, 1⟩], [], 10⟩).1.workers, u.wid = 1 →
      u.last_assigned_date = some ((if (10 : Nat) < 10 then 10 else 10) + (2 - 1))) ∧
    (processDailyAssignments 10
        ⟨[⟨1, "a", none⟩], [], [⟨5, 1, 10, 2, 1⟩], [], 10⟩).1.log =
      [] ++ [.queue_processed] ∧
    (processDailyAssignments 10
        ⟨[⟨1, "a", none⟩], [], [⟨5, 1, 10, 2, 1⟩], [], 10⟩).2 = .ok () :=
  c3_queue_consumption_span 10 ⟨[⟨1, "a", none⟩], [], [⟨5, 1, 10, 2, 1⟩], [], 10⟩
    (by decide) (by decide) ⟨5, 1, 10, 2, 1⟩ (by decide) ⟨1, "a", none⟩ (by decide)
    (by decide)

/-- C4: evaluation of the Undone-Handler cascade at a concrete store
refuting the claimed clean shift.  Today is day 10; marking day 9 not
done reassigns the failed worker to day 10 and should move the future
assignments at days 11 and 12 to 12 and 13.  The loop runs in ascending
date order, so saving the day-11 record as day 12 collides with the
still-present day-12 record on the unique date index and is skipped;
only the day-12 record moves.  The final store keeps record 2 at day 11
(not shifted), record 3 at day 13. -/
theorem c4_cascade_shift_eval :
    ((markNotDone 9 10
        ⟨[⟨0, "keromag", none⟩, ⟨1, "megatorg", none⟩, ⟨2, "baby-ch", none⟩],
          [⟨1, 0, 9, .assigned⟩, ⟨2, 1, 11, .assigned⟩, ⟨3, 2, 12, .assigned⟩],
          [], [], 10⟩).1.assignments.map (fun a => (a.aid, a.date))) =
      [(1, 9), (2, 11), (3, 13), (10, 10)] ∧
    (∃ a ∈ (markNotDone 9 10
        ⟨[⟨0, "keromag", none⟩, ⟨1, "megatorg", none⟩, ⟨2, "baby-ch", none⟩],
          [⟨1, 0, 9, .assigned⟩, ⟨2, 1, 11, .assigned⟩, ⟨3, 2, 12, .assigned⟩],
          [], [], 10⟩).1.assignments, a.aid = 2 ∧ a.date = 11 ∧ a.date ≠ 11 + 1) := by
  constructor <;> decide

/-! ### Support lemmas for the mark-not-done handler -/

@[simp] theorem findWorker_setAssignStatus (s : AppState) (rid : Nat) (st : Status)
    (wid : Nat) : findWorker (setAssignStatus s rid st) wid = findWorker s wid := rfl

theorem find_today_after_status (s : AppState) (rid : Nat) (st : Status) (today : Nat) :
    (setAssignStatus s rid st).assignments.find? (fun a => a.date == today) =
      (s.assignments.find? (fun a => a.date == today)).map
        (fun a => if a.aid = rid then { a with status := st } else a) := by
  rw [setAssignStatus_assignments, List.find?_map]
  have hp : ((fun a : Assignment => a.date == today) ∘
      (fun a => if a.aid = rid then { a with status := st } else a)) =
      (fun a : Assignment => a.date == today) := by
    funext a
    by_cases hc : a.aid = rid <;> simp [hc]
  rw [hp]

theorem createAssignGuarded_success (s : AppState) (wid d : Nat) (st : Status)
    (hguard : s.assignments.any (fun a => a.date == d) = false) :
    createAssignGuarded s wid d st =
      (⟨s.workers, s.assignments ++ [⟨s.nextId, wid, d, st⟩], s.queue, s.log,
        s.nextId + 1⟩, true) := by
  rw [createAssignGuarded, if_neg (by simp [hguard])]

theorem doShifts_mem_fields (today : Nat) (s : AppState) (b : Assignment)
    (hb : b ∈ s.assignments) :
    ∃ b' ∈ (doShifts today s).assignments,
      b'.aid = b.aid ∧ b'.status = b.status ∧ b'.worker_id = b.worker_id := by
  rw [doShifts]
  obtain ⟨b', hb', h1, h2, h3⟩ := shiftAssignmentsLoop_mem_fields _ s b hb
  exact ⟨b', by rw [shiftQueueLoop_assignments]; exact hb', h1, h2, h3⟩

theorem doShifts_no_aid (today : Nat) (s : AppState) (x : Nat)
    (h : ∀ b ∈ s.assignments, b.aid ≠ x) :
    ∀ b' ∈ (doShifts today s).assignments, b'.aid ≠ x := by
  rw [doShifts]
  intro b' hb'
  rw [shiftQueueLoop_assignments] at hb'
  exact shiftAssignmentsLoop_no_aid _ s x h b' hb'

theorem doShifts_mem_keep_le_today (today : Nat) (s : AppState) (hWF : WF s)
    (b : Assignment) (hb : b ∈ s.assignments) (hbd : b.date ≤ today) :
    b ∈ (doShifts today s).assignments := by
  rw [doShifts]
  rw [shiftQueueLoop_assignments]
  refine shiftAssignmentsLoop_mem_keep _ s b hb ?_
  intro a ha hc
  rw [mem_sortBy] at ha
  rw [List.mem_filter] at ha
  obtain ⟨hamem, hagt⟩ := ha
  simp only [decide_eq_true_eq] at hagt
  have hab : a = b := eq_of_mem_of_aid_eq s.assignments hWF.1 a b hamem hb hc
  rw [hab] at hagt
  omega

theorem markNotDone_tail_spec (today : Nat) (sX F : AppState) (wid : Nat)
    (hF : F = appendLog (doShifts today (setWorkerLad
        ⟨sX.workers, sX.assignments ++ [⟨sX.nextId, wid, today, .assigned⟩], sX.queue,
          sX.log, sX.nextId + 1⟩ wid (some today))) .marked_not_done)
    (hguard : sX.assignments.any (fun a => a.date == today) = false)
    (hWFX : WF sX) :
    (∀ b ∈ sX.assignments, ∃ b' ∈ F.assignments,
      b'.aid = b.aid ∧ b'.status = b.status ∧ b'.worker_id = b.worker_id) ∧
    (∃ b ∈ F.assignments, b.date = today ∧ b.worker_id = wid ∧ b.status = .assigned) ∧
    (∀ x, x ≠ sX.nextId → (∀ b ∈ sX.assignments, b.aid ≠ x) →
      ∀ b' ∈ F.assignments, b'.aid ≠ x) ∧
    (∀ u ∈ F.workers, u.wid = wid → u.last_assigned_date = some today) := by
  have hWF3 : WF (⟨sX.workers, sX.assignments ++ [⟨sX.nextId, wid, today, .assigned⟩],
      sX.queue, sX.log, sX.nextId + 1⟩ : AppState) := by
    have h := WF_createAssignGuarded sX wid today .assigned hWFX
    rw [createAssignGuarded_success sX wid today .assigned hguard] at h
    exact h
  have hWF4 : WF (setWorkerLad
      ⟨sX.workers, sX.assignments ++ [⟨sX.nextId, wid, today, .assigned⟩], sX.queue,
        sX.log, sX.nextId + 1⟩ wid (some today)) :=
    WF_setWorkerLad _ wid (some today) hWF3
  have hs4a : (setWorkerLad
      ⟨sX.workers, sX.assignments ++ [⟨sX.nextId, wid, today, .assigned⟩], sX.queue,
        sX.log, sX.nextId + 1⟩ wid (some today)).assignments =
      sX.assignments ++ [⟨sX.nextId, wid, today, .assigned⟩] := rfl
  refine ⟨?_, ?_, ?_, ?_⟩
  · intro b hb
    rw [hF, appendLog_assignments]
    refine doShifts_mem_fields today _ b ?_
    rw [hs4a]
    exact List.mem_append_left _ hb
  · rw [hF, appendLog_assignments]
    refine ⟨⟨sX.nextId, wid, today, .assigned⟩, ?_, rfl, rfl, rfl⟩
    refine doShifts_mem_keep_le_today today _ hWF4 _ ?_ (Nat.le_refl today)
    rw [hs4a]
    exact List.mem_append_right _ (List.mem_singleton_self _)
  · intro x hx hold b' hb'
    rw [hF, appendLog_assignments] at hb'
    refine doShifts_no_aid today _ x ?_ b' hb'
    intro b hb
    rw [hs4a, List.mem_append] at hb
    rcases hb with hb | hb
    · exact hold b hb
    · simp only [List.mem_singleton] at hb
      rw [hb]
      exact fun hc => hx hc.symm
  · intro u hu huw
    rw [hF, appendLog_workers, doShifts_workers, setWorkerLad_workers] at hu
    obtain ⟨v, _, hvu⟩ := List.mem_map.mp hu
    by_cases hv : v.wid = wid
    · rw [← hvu, if_pos hv]
    · exfalso
      rw [← hvu, if_neg hv] at huw
      exact hv huw

/-- C5: on a store holding an assignment for the target date, the
mark-not-done handler sets that record's status to `not_done`; when
today's assignment belongs to a different worker it is deleted and never
reappears; and when the failed worker holds no assignment for today, a
fresh `assigned` record for the failed worker on today is created and
the failed worker's `last_assigned_date` is set to today.  With no
assignment on the target date the handler fails with not-found and the
store is untouched. -/
theorem c5_mark_not_done_steps (dd today : Nat) (s : AppState) (hWF : WF s) :
    (s.assignments.find? (fun a => a.date == dd) = none →
      markNotDone dd today s = (s, .error .notFound)) ∧
    ∀ aMark, s.assignments.find? (fun a => a.date == dd) = some aMark →
      (findWorker s aMark.worker_id).isSome = true →
      (∃ b ∈ (markNotDone dd today s).1.assignments,
        b.aid = aMark.aid ∧ b.status = .not_done) ∧
      (∀ et, s.assignments.find? (fun a => a.date == today) = some et →
        et.worker_id ≠ aMark.worker_id →
        ∀ b ∈ (markNotDone dd today s).1.assignments, b.aid ≠ et.aid) ∧
      ((¬ ∃ b ∈ s.assignments, b.date = today ∧ b.worker_id = aMark.worker_id) →
        (∃ b ∈ (markNotDone dd today s).1.assignments,
          b.date = today ∧ b.worker_id = aMark.worker_id ∧ b.status = .assigned) ∧
        (∀ u ∈ (markNotDone dd today s).1.workers, u.wid = aMark.worker_id →
          u.last_assigned_date = some today)) := by
  constructor
  · intro hnone
    rw [markNotDone, hnone]
  · intro aMark hfd hfws
    obtain ⟨fw, hfw⟩ := Option.isSome_iff_exists.mp hfws
    have hamem : aMark ∈ s.assignments := List.mem_of_find?_eq_some hfd
    have hWF1 : WF (setAssignStatus s aMark.aid .not_done) :=
      WF_setAssignStatus s aMark.aid .not_done hWF
    have hb1 : { aMark with status := Status.not_done } ∈
        (setAssignStatus s aMark.aid .not_done).assignments :=
      mem_setAssignStatus_self s aMark.aid .not_done aMark hamem rfl
    rw [markNotDone, hfd]
    dsimp only
    rw [findWorker_setAssignStatus, hfw]
    dsimp only
    rw [find_today_after_status]
    cases hfd2 : s.assignments.find? (fun a => a.date == today) with
    | none =>
      simp only [Option.map_none']
      rw [if_pos trivial]
      have hguard : (setAssignStatus s aMark.aid Status.not_done).assignments.any
          (fun a => a.date == today) = false := by
        rw [List.any_eq_false]
        intro b hb
        obtain ⟨c, hc, hbc⟩ := setAssignStatus_mem_inv _ _ _ b hb
        have hbd : b.date = c.date := by
          rw [hbc]; by_cases h1 : c.aid = aMark.aid <;> simp [h1]
        have hcd := List.find?_eq_none.mp hfd2 c hc
        simp only [beq_iff_eq] at hcd ⊢
        rw [hbd]
        exact hcd
      rw [createAssignGuarded_success _ _ _ _ hguard]
      dsimp only
      obtain ⟨t1, t2, t3, t4⟩ := markNotDone_tail_spec today
        (setAssignStatus s aMark.aid Status.not_done) _ aMark.worker_id rfl hguard hWF1
      refine ⟨?_, ?_, ?_⟩
      · obtain ⟨b', hb', ha', hs', _⟩ := t1 _ hb1
        exact ⟨b', hb', ha', hs'⟩
      · intro et het
        exact absurd het (by simp)
      · intro _
        exact ⟨t2, t4⟩
    | some et =>
      simp only [Option.map_some']
      have hetmem : et ∈ s.assignments := List.mem_of_find?_eq_some hfd2
      have hettoday : et.date = today := by simpa using List.find?_some hfd2
      by_cases het : et.worker_id = aMark.worker_id
      · have hgw : (if et.aid = aMark.aid then { et with status := Status.not_done }
            else et).worker_id = et.worker_id := by
          by_cases h1 : et.aid = aMark.aid <;> simp [h1]
        rw [if_neg (show ¬ (if et.aid = aMark.aid then { et with status := Status.not_done }
            else et).worker_id ≠ aMark.worker_id from fun hc => hc (by rw [hgw, het]))]
        have hnc : ((if et.aid = aMark.aid then { et with status := Status.not_done }
            else et).worker_id != aMark.worker_id) = false := by
          rw [hgw]
          simp [het]
        rw [hnc, if_neg Bool.false_ne_true]
        refine ⟨?_, ?_, ?_⟩
        · obtain ⟨b', hb', ha', hs', _⟩ := doShifts_mem_fields today _ _ hb1
          exact ⟨b', by simpa using hb', ha', hs'⟩
        · intro et' het' hetw'
          injection het' with heq
          exact absurd (heq ▸ het) hetw'
        · intro hnex
          exact absurd ⟨et, hetmem, hettoday, het⟩ hnex
      · have hetnam : et ≠ aMark := fun hc => het (by rw [hc])
        have heta : et.aid ≠ aMark.aid :=
          aid_ne_of_mem_of_ne s.assignments hWF.1 et aMark hetmem hamem hetnam
        rw [if_neg heta]
        rw [if_pos het]
        have hnc : (et.worker_id != aMark.worker_id) = true := by simp [het]
        rw [hnc, if_pos rfl]
        have hguard : (appendLog (deleteAssign (setAssignStatus s aMark.aid Status.not_done)
            et.aid) .assignment_cancelled_for_reassignment).assignments.any
            (fun a => a.date == today) = false := by
          rw [appendLog_assignments, deleteAssign_assignments, List.any_eq_false]
          intro b hb
          rw [List.mem_filter] at hb
          obtain ⟨hbmem, hbne⟩ := hb
          simp only [bne_iff_ne, ne_eq] at hbne
          simp only [beq_iff_eq]
          intro hbd
          obtain ⟨c, hc, hbc⟩ := setAssignStatus_mem_inv _ _ _ b hbmem
          have hbdc : b.date = c.date := by
            rw [hbc]; by_cases h1 : c.aid = aMark.aid <;> simp [h1]
          have hce : c = et := eq_of_mem_of_date_eq s.assignments hWF.2.1 c et hc hetmem
            (by rw [← hbdc, hbd, hettoday])
          have hba : b.aid = c.aid := by
            rw [hbc]; by_cases h1 : c.aid = aMark.aid <;> simp [h1]
          exact hbne (by rw [hba, hce])
        rw [createAssignGuarded_success _ _ _ _ hguard]
        dsimp only
        obtain ⟨t1, t2, t3, t4⟩ := markNotDone_tail_spec today
          (appendLog (deleteAssign (setAssignStatus s aMark.aid Status.not_done) et.aid)
            .assignment_cancelled_for_reassignment) _ aMark.worker_id rfl hguard
          (WF_appendLog _ _ (WF_deleteAssign _ et.aid hWF1))
        refine ⟨?_, ?_, ?_⟩
        · have hb1in : { aMark with status := Status.not_done } ∈
              (appendLog (deleteAssign (setAssignStatus s aMark.aid Status.not_done) et.aid)
                .assignment_cancelled_for_reassignment).assignments := by
            rw [appendLog_assignments, deleteAssign_assignments, List.mem_filter]
            refine ⟨hb1, ?_⟩
            simp only [bne_iff_ne, ne_eq]
            exact fun hc => heta hc.symm
          obtain ⟨b', hb', ha', hs', _⟩ := t1 _ hb1in
          exact ⟨b', hb', ha', hs'⟩
        · intro et' het' hetw'
          injection het' with heq
          subst heq
          refine t3 et.aid ?_ ?_
          · intro hc
            have hlt : et.aid < s.nextId := hWF.2.2 et hetmem
            rw [show (appendLog (deleteAssign (setAssignStatus s aMark.aid Status.not_done)
                et.aid) .assignment_cancelled_for_reassignment).nextId = s.nextId from rfl]
              at hc
            omega
          · intro b hb
            rw [appendLog_assignments, deleteAssign_assignments, List.mem_filter] at hb
            simpa using hb.2
        · intro _
          exact ⟨t2, t4⟩

/-- Witness for C5 at a store with a failed day-9 assignment and a
different worker holding day 10. -/
theorem c5_mark_not_done_steps_witness :
    (∃ b ∈ (markNotDone 9 10
        ⟨[⟨0, "keromag", none⟩, ⟨1, "megatorg", none⟩],
          [⟨1, 0, 9, .assigned⟩, ⟨2, 1, 10, .assigned⟩], [], [], 5⟩).1.assignments,
      b.aid = (⟨1, 0, 9, .assigned⟩ : Assignment).aid ∧ b.status = .not_done) ∧
    (∀ et, ([⟨1, 0, 9, .assigned⟩, ⟨2, 1, 10, .assigned⟩] : List Assignment).find?
        (fun a => a.date == 10) = some et →
      et.worker_id ≠ (⟨1, 0, 9, .assigned⟩ : Assignment).worker_id →
      ∀ b ∈ (markNotDone 9 10
        ⟨[⟨0, "keromag", none⟩, ⟨1, "megatorg", none⟩],
          [⟨1, 0, 9, .assigned⟩, ⟨2, 1, 10, .assigned⟩], [], [], 5⟩).1.assignments,
        b.aid ≠ et.aid) ∧
    ((¬ ∃ b ∈ ([⟨1, 0, 9, .assigned⟩, ⟨2, 1, 10, .assigned⟩] : List Assignment),
        b.date = 10 ∧ b.worker_id = (⟨1, 0, 9, .assigned⟩ : Assignment).worker_id) →
      (∃ b ∈ (markNotDone 9 10
          ⟨[⟨0, "keromag", none⟩, ⟨1, "megatorg", none⟩],
            [⟨1, 0, 9, .assigned⟩, ⟨2, 1, 10, .assigned⟩], [], [], 5⟩).1.assignments,
        b.date = 10 ∧ b.worker_id = (⟨1, 0, 9, .assigned⟩ : Assignment).worker_id ∧
          b.status = .assigned) ∧
      (∀ u ∈ (markNotDone 9 10
          ⟨[⟨0, "keromag", none⟩, ⟨1, "megatorg", none⟩],
            [⟨1, 0, 9, .assigned⟩, ⟨2, 1, 10, .assigned⟩], [], [], 5⟩).1.workers,
        u.wid = (⟨1, 0, 9, .assigned⟩ : Assignment).worker_id →
        u.last_assigned_date = some 10)) :=
  (c5_mark_not_done_steps 9 10
      ⟨[⟨0, "keromag", none⟩, ⟨1, "megatorg", none⟩],
        [⟨1, 0, 9, .assigned⟩, ⟨2, 1, 10, .assigned⟩], [], [], 5⟩ (by decide)).2
    ⟨1, 0, 9, .assigned⟩ (by decide) (by decide)

/-- Witness for C6: enqueue onto a store holding one queue entry. -/
theorem c6_enqueue_start_and_order_witness :
    ∃ e : QueueEntry,
      (queueAddHandler "x" "x" 0 2 10
        ⟨[⟨0, "keromag", none⟩], [], [⟨3, 0, 12, 3, 4⟩], [], 9⟩).1.queue =
        [⟨3, 0, 12, 3, 4⟩] ++ [e] ∧
      (queueAddHandler "x" "x" 0 2 10
        ⟨[⟨0, "keromag", none⟩], [], [⟨3, 0, 12, 3, 4⟩], [], 9⟩).2 = .ok () ∧
      e.worker_id = 0 ∧ e.duration_days = (2 : Int).toNat ∧
      (([⟨3, 0, 12, 3, 4⟩] : List QueueEntry) ≠ [] →
        ∃ q ∈ [(⟨3, 0, 12, 3, 4⟩ : QueueEntry)],
          (∀ x ∈ [(⟨3, 0, 12, 3, 4⟩ : QueueEntry)], x.order ≤ q.order) ∧
          e.start_date = max 10 (q.start_date + (q.duration_days - 1) + 1) ∧
          e.order = q.order + 1) ∧
      (([⟨3, 0, 12, 3, 4⟩] : List QueueEntry) = [] → e.order = 1 ∧
        (([] : List Assignment) = [] → e.start_date = 10) ∧
        (([] : List Assignment) ≠ [] → ∃ a ∈ ([] : List Assignment),
          (∀ b ∈ ([] : List Assignment), b.date ≤ a.date) ∧
          e.start_date = if 10 ≤ a.date then a.date + 1 else 10)) :=
  c6_enqueue_start_and_order "x" "x" 0 2 10
    ⟨[⟨0, "keromag", none⟩], [], [⟨3, 0, 12, 3, 4⟩], [], 9⟩
    (by decide) (by decide) (by decide) (by decide)
